import Mathlib

/-!
Verification of the cashback-partners aggregation pipeline.

The development shallowly embeds the two core parts of the repository:

* `scripts/combine.py` — the helpers `_clean`, `_cashback_num`, the reward
  classifier `_reward_type`, the eight per-source row transformers
  (`load_bolkart` … `load_bankrespublika`) and the aggregation order of `main`.
* `scripts/tamkart.py` — the marker locator and the bracket-matching scanner
  of `extract_js_array`, plus the permissive JS-literal parser component
  (which the script delegates to an external JS runtime, so the parser itself
  is modelled from its specification).

Python strings are embedded as Lean `String`/`List Char`; a CSV row (the
`csv.DictReader` dict) is a function from field names to `Option String`
(`none` models an absent/`None` value).  Python `float(...)` on a string is
embedded in two stages: the accepted textual forms are parsed into an exact
sign/mantissa/exponent representation (`PyNum`), and the one comparison the
program performs on the resulting double, `float(cb) > 0`, is decided on the
IEEE-754 binary64 value `float` returns — a positive exact value is positive
as a double exactly when it exceeds `2 ^ (-1075)`, half the smallest positive
subnormal (`float("1e-324")` underflows to `0.0`).  The rendering
`str(float(...))` is kept abstract as a `render : PyNum → String` parameter.
-/

namespace Cashback

/-! ### Python string primitives -/

/-- Whitespace characters stripped by Python `str.strip()`: exactly the code
    points CPython's `Py_UNICODE_ISSPACE` accepts — ASCII `0x09`-`0x0D`, the
    separators `0x1C`-`0x1F`, space, NEL (`U+0085`), NBSP (`U+00A0`), OGHAM
    SPACE MARK (`U+1680`), the typographic spaces `U+2000`-`U+200A`, LINE and
    PARAGRAPH SEPARATOR (`U+2028`/`U+2029`), NARROW NBSP (`U+202F`), MMSP
    (`U+205F`) and IDEOGRAPHIC SPACE (`U+3000`). -/
def isPyWs (c : Char) : Bool :=
  (9 ≤ c.toNat && c.toNat ≤ 13) || (28 ≤ c.toNat && c.toNat ≤ 32) ||
  c.toNat = 133 || c.toNat = 160 || c.toNat = 5760 ||
  (8192 ≤ c.toNat && c.toNat ≤ 8202) || c.toNat = 8232 || c.toNat = 8233 ||
  c.toNat = 8239 || c.toNat = 8287 || c.toNat = 12288

/-- Strip leading and trailing whitespace from a character list. -/
def stripEnds (l : List Char) : List Char :=
  ((l.dropWhile isPyWs).reverse.dropWhile isPyWs).reverse

/-- Python `s.strip()`. -/
def pyStrip (s : String) : String := String.mk (stripEnds s.data)

/-- Python `_clean(v)` from `combine.py` lines 48-49: `str(v or "").strip()`.
    The argument models a value read from a `csv.DictReader` row, where `none`
    is an absent/`None` value. -/
def pyClean (v : Option String) : String := pyStrip (v.getD "")

/-- Python `raw.replace("%", "")`: removes every `%` character. -/
def removePct (s : String) : String := String.mk (s.data.filter (fun c => c ≠ '%'))

/-! ### An embedding of Python `float(text)`

`float` first rewrites Unicode decimal digits to ASCII and Unicode whitespace
to spaces (`_PyUnicode_TransformDecimalAndSpaceToASCII`), then accepts (after
stripping whitespace) an optional sign followed by either a case-insensitive
`inf`/`infinity`/`nan` or a decimal literal
`digits [. digits] [(e|E) [sign] digits]` where each digit run may contain
single underscores between digits.  The numeric value is kept exactly as
`(-1)^neg * mant * 10^exp`; the one comparison the program makes on the
rounded double (`> 0`) is decided separately by `pyNumPos` below. -/

/-- Whitespace accepted around a `float()` argument: ASCII `0x09`-`0x0D` and
    space (skipped by the C-level parser) plus the non-ASCII whitespace code
    points the Unicode-to-ASCII transform rewrites to a space.  Unlike
    `str.strip()`, the ASCII separators `0x1C`-`0x1F` are not accepted
    (`float("\x1c5")` raises `ValueError` although `"\x1c5".strip()` strips). -/
def isFloatWs (c : Char) : Bool :=
  (9 ≤ c.toNat && c.toNat ≤ 13) || c.toNat = 32 ||
  c.toNat = 133 || c.toNat = 160 || c.toNat = 5760 ||
  (8192 ≤ c.toNat && c.toNat ≤ 8202) || c.toNat = 8232 || c.toNat = 8233 ||
  c.toNat = 8239 || c.toNat = 8287 || c.toNat = 12288

/-- Strip leading and trailing `float()` whitespace. -/
def stripEndsF (l : List Char) : List Char :=
  ((l.dropWhile isFloatWs).reverse.dropWhile isFloatWs).reverse

/-- Result of a successful Python `float` conversion, kept exact. -/
inductive PyNum where
  | fin (neg : Bool) (mant : Nat) (exp : Int)
  | inf (neg : Bool)
  | nan
deriving DecidableEq, Repr

/-- First code points of the sixty-six aligned blocks of ten Unicode decimal
    digits (category `Nd`) that CPython's transform rewrites to ASCII digits
    before parsing (ASCII `0`-`9` first). -/
def decDigitStarts : List Nat :=
  [48, 1632, 1776, 1984, 2406, 2534, 2662, 2790, 2918, 3046, 3174, 3302,
   3430, 3558, 3664, 3792, 3872, 4160, 4240, 6112, 6160, 6470, 6608, 6784,
   6800, 6992, 7088, 7232, 7248, 42528, 43216, 43264, 43472, 43504, 43600,
   44016, 65296, 66720, 68912, 69734, 69872, 69942, 70096, 70384, 70736,
   70864, 71248, 71360, 71472, 71904, 72016, 72784, 73040, 73120, 92768,
   92864, 93008, 120782, 120792, 120802, 120812, 120822, 123200, 123632,
   125264, 130032]

/-- Decimal value of a character if it is a Unicode decimal digit. -/
def udigit (c : Char) : Option Nat :=
  match decDigitStarts.find? (fun s => s ≤ c.toNat && c.toNat ≤ s + 9) with
  | some s => some (c.toNat - s)
  | none => none

/-- Consume further digits (with single underscores allowed between digits),
    accumulating the value and the count of digits consumed. -/
def digitsUGo (acc n : Nat) : List Char → Nat × Nat × List Char
  | [] => (acc, n, [])
  | c :: t =>
    match udigit c with
    | some v => digitsUGo (10 * acc + v) (n + 1) t
    | none =>
      if c = '_' then
        match t with
        | d :: t2 =>
          match udigit d with
          | some v => digitsUGo (10 * acc + v) (n + 1) t2
          | none => (acc, n, c :: t)
        | [] => (acc, n, c :: t)
      else (acc, n, c :: t)

/-- Consume a nonempty digit run (underscores between digits allowed); returns
    its value, its digit count, and the rest, or `none` if no leading digit. -/
def digitsU : List Char → Option (Nat × Nat × List Char)
  | [] => none
  | c :: t =>
    match udigit c with
    | some v => some (digitsUGo v 1 t)
    | none => none

/-- Consume an optional sign; `true` means negative. -/
def pySign : List Char → Bool × List Char
  | [] => (false, [])
  | c :: t => if c = '+' then (false, t) else if c = '-' then (true, t) else (false, c :: t)

/-- Parse the mantissa `digits [. digits] | . digits`; returns the combined
    digit value and the decimal-point exponent shift. -/
def pyMantissa (l : List Char) : Option (Nat × Int × List Char) :=
  match digitsU l with
  | some (a, _, r1) =>
    match r1 with
    | '.' :: r2 =>
      match digitsU r2 with
      | some (b, k, r3) => some (a * 10 ^ k + b, -(k : Int), r3)
      | none => some (a, 0, r2)
    | _ => some (a, 0, r1)
  | none =>
    match l with
    | '.' :: r2 =>
      match digitsU r2 with
      | some (b, k, r3) => some (b, -(k : Int), r3)
      | none => none
    | _ => none

/-- Parse an optional exponent part `(e|E) [sign] digits`. -/
def pyExpo (l : List Char) : Option (Int × List Char) :=
  match l with
  | c :: r1 =>
    if c = 'e' || c = 'E' then
      match pySign r1 with
      | (eneg, r2) =>
        match digitsU r2 with
        | some (v, _, r3) => some ((if eneg then -(v : Int) else (v : Int)), r3)
        | none => none
    else some (0, c :: r1)
  | [] => some (0, [])

/-- Lowercase a character list (for `inf`/`nan` recognition). -/
def lowerList (l : List Char) : List Char := l.map Char.toLower

/-- Python `float(s)` for a string: `some` with the exact value on success,
    `none` where CPython raises `ValueError`. -/
def pyFloatParse (s : String) : Option PyNum :=
  let l := stripEndsF s.data
  match pySign l with
  | (neg, r0) =>
    let low := lowerList r0
    if low = "inf".data || low = "infinity".data then some (.inf neg)
    else if low = "nan".data then some .nan
    else
      match pyMantissa r0 with
      | none => none
      | some (m, e1, r1) =>
        match pyExpo r1 with
        | none => none
        | some (e2, r2) => if r2 = [] then some (.fin neg m (e1 + e2)) else none

/-- Decides `c ≤ 10 ^ k` without materialising `10 ^ k` (the exponent `k`
    comes from user text and may be astronomically large): repeatedly divide
    by ten, rounding up, and stop as soon as the dividend reaches one. -/
def tenPowGE : Nat → Nat → Bool
  | 0, c => decide (c ≤ 1)
  | k + 1, c => if c ≤ 1 then true else tenPowGE k ((c + 9) / 10)

/-- Whether `float(text) > 0` holds for a parse result.  The comparison in
    `_reward_type` is made on the IEEE-754 binary64 value `float` returns,
    not on the exact decimal value: `float` rounds to nearest, ties to even,
    so a non-negative exact value `m * 10 ^ e` yields a double strictly
    greater than zero exactly when it exceeds `2 ^ (-1075)` — half the
    smallest positive subnormal; at exactly `2 ^ (-1075)` the tie rounds to
    the even neighbour `0.0`, and below it the value underflows to `0.0`
    (CPython: `float("1e-324") == 0.0` while `float("3e-324") > 0`).  For
    `e < 0` the threshold test is the integer comparison
    `m * 2 ^ 1075 > 10 ^ (-e)`; for `e ≥ 0` a nonzero mantissa already
    exceeds the threshold, and overflow to `+inf` keeps the comparison true.
    `nan > 0` and `-0.0 > 0` are false; negative values round to a
    non-positive double. -/
def pyNumPos : PyNum → Bool
  | .fin neg m e =>
    !neg && (if 0 ≤ e then m != 0 else !(tenPowGE (-e).toNat (m * 2 ^ 1075)))
  | .inf neg => !neg
  | .nan => false

/-- Strict positivity of the exact decimal value of a parse result.  This is
    the plain mathematical reading of "parses as a number strictly greater
    than zero" — it is not the comparison the program makes, since `float`
    rounds before comparing and positive exact values at or below
    `2 ^ (-1075)` round to `0.0` (see `pyNumPos`). -/
def pyNumPosExact : PyNum → Bool
  | .fin neg m _ => !neg && m != 0
  | .inf neg => !neg
  | .nan => false

/-- Exact rational value of a finite Python float result. -/
def finVal (neg : Bool) (m : Nat) (e : Int) : ℚ :=
  (if neg then -1 else 1) * (m : ℚ) * (10 : ℚ) ^ e

/-! ### The reward classifier and the cashback normaliser (`combine.py`) -/

/-- Python `_cashback_num(raw)` from `combine.py` lines 52-59.  The rendering
    `str(float(raw))` is abstracted as `render` (a property of CPython's float
    repr, irrelevant to the parse/branch structure verified here). -/
def cashback_num (render : PyNum → String) (raw : Option String) : String :=
  let r1 := pyClean raw
  let r2 := pyStrip (removePct r1)
  if r2 ≠ "" then
    match pyFloatParse r2 with
    | some f => render f
    | none => r2
  else ""

/-- Python `_reward_type(cashback, taksit, source)` from `combine.py`
    lines 62-74.  The `try`/`except ValueError` around `float(cb)` is embedded
    by the `pyFloatParse` match: `some` is the no-exception path, `none` the
    `ValueError` path. -/
def reward_type (cashback taksit source : String) : String :=
  if source = "pashabank" then "miles"
  else
    let cb := pyStrip cashback
    if cb ≠ "" then
      match pyFloatParse cb with
      | some f =>
        if pyNumPos f then "cashback"
        else if pyStrip taksit ≠ "" then "taksit_only" else "unknown"
      | none => "cashback"
    else if pyStrip taksit ≠ "" then "taksit_only" else "unknown"

/-! ### The canonical record and the per-source transformers -/

/-- The unified output schema of `combine.py` (`CSV_FIELDS`). -/
structure PartnerRec where
  source : String
  id : String
  name : String
  category : String
  cashback : String
  reward_type : String
  taksit_months : String
  city : String
  address : String
  phone : String
  website : String
  image_url : String
deriving DecidableEq, Repr

/-- A raw CSV row: a lookup from column name to its (possibly absent) value. -/
def Row : Type := String → Option String

/-- The per-row body of `load_bolkart` (`combine.py` lines 85-100). -/
def bolkart_row (render : PyNum → String) (r : Row) : PartnerRec :=
  let cb := cashback_num render (r "cashback")
  let taksit := pyClean (r "taksits")
  { source := "bolkart"
    id := pyClean (r "id")
    name := pyClean (r "name_az")
    category := pyClean (r "category_az")
    cashback := cb
    reward_type := reward_type cb taksit "bolkart"
    taksit_months := taksit
    city := ""
    address := ""
    phone := pyClean (r "phone_number")
    website := pyClean (r "site_url")
    image_url := if pyClean (r "logo_url") = "" then pyClean (r "icon_url")
                 else pyClean (r "logo_url") }

/-- `load_bolkart` over its parsed CSV rows (the file I/O is outside the core). -/
def load_bolkart (render : PyNum → String) (rows : List Row) : List PartnerRec :=
  rows.map (bolkart_row render)

/-- The per-row body of `load_tamkart` (`combine.py` lines 108-123). -/
def tamkart_row (render : PyNum → String) (r : Row) : PartnerRec :=
  let cb := cashback_num render (r "cashback")
  let taksit := pyClean (r "taksits")
  { source := "tamkart"
    id := pyClean (r "id")
    name := pyClean (r "name")
    category := pyClean (r "category")
    cashback := cb
    reward_type := reward_type cb taksit "tamkart"
    taksit_months := taksit
    city := pyClean (r "city")
    address := pyClean (r "address")
    phone := ""
    website := ""
    image_url := "" }

/-- `load_tamkart` over its rows. -/
def load_tamkart (render : PyNum → String) (rows : List Row) : List PartnerRec :=
  rows.map (tamkart_row render)

/-- The per-row body of `load_birbank` (`combine.py` lines 131-146). -/
def birbank_row (render : PyNum → String) (r : Row) : PartnerRec :=
  let cb := cashback_num render (r "cashback")
  let taksit := pyClean (r "installments")
  { source := "birbank"
    id := pyClean (r "id")
    name := pyClean (r "name")
    category := pyClean (r "categories")
    cashback := cb
    reward_type := reward_type cb taksit "birbank"
    taksit_months := taksit
    city := pyClean (r "cities")
    address := ""
    phone := pyClean (r "phone")
    website := pyClean (r "website")
    image_url := pyClean (r "image_url") }

/-- `load_birbank` over its rows. -/
def load_birbank (render : PyNum → String) (rows : List Row) : List PartnerRec :=
  rows.map (birbank_row render)

/-- The per-row body of `load_rabitabank` (`combine.py` lines 154-168). -/
def rabitabank_row (render : PyNum → String) (r : Row) : PartnerRec :=
  let cb := cashback_num render (r "cash_back")
  { source := "rabitabank"
    id := pyClean (r "id")
    name := pyClean (r "title")
    category := pyClean (r "category")
    cashback := cb
    reward_type := reward_type cb "" "rabitabank"
    taksit_months := ""
    city := ""
    address := ""
    phone := ""
    website := pyClean (r "url")
    image_url := pyClean (r "image_url") }

/-- `load_rabitabank` over its rows. -/
def load_rabitabank (render : PyNum → String) (rows : List Row) : List PartnerRec :=
  rows.map (rabitabank_row render)

/-- The per-row body of `load_unibank` (`combine.py` lines 176-191). -/
def unibank_row (render : PyNum → String) (r : Row) : PartnerRec :=
  let cb := cashback_num render (r "cashback_percent")
  let taksit := pyClean (r "taksit_months")
  { source := "unibank"
    id := pyClean (r "id")
    name := pyClean (r "name")
    category := pyClean (r "category")
    cashback := cb
    reward_type := reward_type cb taksit "unibank"
    taksit_months := taksit
    city := ""
    address := ""
    phone := ""
    website := pyClean (r "detail_url")
    image_url := pyClean (r "image_url") }

/-- `load_unibank` over its rows. -/
def load_unibank (render : PyNum → String) (rows : List Row) : List PartnerRec :=
  rows.map (unibank_row render)

/-- The per-row body of `load_xalqbank` (`combine.py` lines 199-213). -/
def xalqbank_row (render : PyNum → String) (r : Row) : PartnerRec :=
  let cb := cashback_num render (r "cashback_percent")
  { source := "xalqbank"
    id := pyClean (r "id")
    name := pyClean (r "title")
    category := pyClean (r "category")
    cashback := cb
    reward_type := reward_type cb "" "xalqbank"
    taksit_months := ""
    city := pyClean (r "region")
    address := pyClean (r "address")
    phone := pyClean (r "phone")
    website := pyClean (r "website")
    image_url := pyClean (r "image_url") }

/-- `load_xalqbank` over its rows. -/
def load_xalqbank (render : PyNum → String) (rows : List Row) : List PartnerRec :=
  rows.map (xalqbank_row render)

/-- The per-row body of `load_pashabank` (`combine.py` lines 221-235). -/
def pashabank_row (render : PyNum → String) (r : Row) : PartnerRec :=
  let cb := cashback_num render (r "miles_per_azn")
  { source := "pashabank"
    id := ""
    name := pyClean (r "name")
    category := pyClean (r "category")
    cashback := cb
    reward_type := "miles"
    taksit_months := ""
    city := ""
    address := pyClean (r "condition")
    phone := ""
    website := ""
    image_url := pyClean (r "image_url") }

/-- `load_pashabank` over its rows. -/
def load_pashabank (render : PyNum → String) (rows : List Row) : List PartnerRec :=
  rows.map (pashabank_row render)

/-- The per-row body of `load_bankrespublika` (`combine.py` lines 243-256). -/
def bankrespublika_row (r : Row) : PartnerRec :=
  { source := "bankrespublika"
    id := ""
    name := pyClean (r "name")
    category := ""
    cashback := ""
    reward_type := "unknown"
    taksit_months := ""
    city := pyClean (r "city")
    address := pyClean (r "address")
    phone := ""
    website := ""
    image_url := "" }

/-- `load_bankrespublika` over its rows. -/
def load_bankrespublika (rows : List Row) : List PartnerRec :=
  rows.map bankrespublika_row

/-- The aggregation of `main` (`combine.py` lines 276-289): concatenation of
    all loader outputs in the fixed `LOADERS` order. -/
def aggregate (render : PyNum → String)
    (b t bi ra u x p bk : List Row) : List PartnerRec :=
  load_bolkart render b ++ load_tamkart render t ++ load_birbank render bi ++
  load_rabitabank render ra ++ load_unibank render u ++ load_xalqbank render x ++
  load_pashabank render p ++ load_bankrespublika bk

/-! ### The literal locator and scanner (`tamkart.py`, `extract_js_array`)

The Python loop state is `(depth, in_str, escape, str_char)`; `str_char` is
`None` until the first string is entered, which is modelled by an arbitrary
placeholder character (it is only ever read while `in_str` is true, and any
entry into string mode overwrites it).  `scanStep` is one iteration of the
`for i, ch in enumerate(js[start:], start)` loop body; `.inr e` models the
`end = i + 1; break` exit. -/

/-- Single-quote character (JS string delimiter). -/
def sq : Char := Char.ofNat 39

/-- Backtick character (JS template-string delimiter). -/
def bq : Char := Char.ofNat 96

/-- State of the bracket-matching loop in `extract_js_array`. -/
structure ScanSt where
  depth : Int
  inStr : Bool
  esc : Bool
  strChar : Char
deriving DecidableEq, Repr

/-- One iteration of the scanner loop body (`tamkart.py` lines 97-117). -/
def scanStep (st : ScanSt) (i : Nat) (ch : Char) : ScanSt ⊕ Nat :=
  if st.esc then .inl ⟨st.depth, st.inStr, false, st.strChar⟩
  else if ch = '\\' then .inl ⟨st.depth, st.inStr, true, st.strChar⟩
  else if st.inStr then
    if ch = st.strChar then .inl ⟨st.depth, false, st.esc, st.strChar⟩
    else .inl st
  else if ch = '"' || ch = sq || ch = bq then .inl ⟨st.depth, true, st.esc, ch⟩
  else if ch = '[' then .inl ⟨st.depth + 1, st.inStr, st.esc, st.strChar⟩
  else if ch = ']' then
    if st.depth - 1 = 0 then .inr (i + 1)
    else .inl ⟨st.depth - 1, st.inStr, st.esc, st.strChar⟩
  else .inl st

/-- The scanner loop: returns `some e` when the `depth == 0` break fires with
    `end = e`, and `none` when the input is exhausted without the break (in
    which case the Python code leaves `end = start`). -/
def scanLoop : List Char → Nat → ScanSt → Option Nat
  | [], _, _ => none
  | ch :: rest, i, st =>
    match scanStep st i ch with
    | .inr e => some e
    | .inl st2 => scanLoop rest (i + 1) st2

/-- Initial scanner state (`depth = 0, in_str = False, escape = False`,
    placeholder for `str_char = None`). -/
def initScan : ScanSt := ⟨0, false, false, ' '⟩

/-- Index of the first occurrence of `pat` in a list (Python `js.find(pat)`,
    with `none` for `-1`). -/
def firstOccur (pat : List Char) : List Char → Option Nat
  | [] => if pat.isPrefixOf [] then some 0 else none
  | c :: t => if pat.isPrefixOf (c :: t) then some 0 else (firstOccur pat t).map (· + 1)

/-- The marker proper: the assignment prefix `let s=`, after which the literal
    is expected to start. -/
def markerEq : List Char := "let s=".data

/-- The pattern actually searched for by `extract_js_array`: the marker
    followed by the opening bracket. -/
def markerPat : List Char := "let s=[".data

/-- The locator part of `extract_js_array` (`tamkart.py` lines 88-90):
    `start = js.find("let s=[") + len("let s=")`, raising `ValueError`
    (modelled as `none`) exactly when `find` returned `-1`. -/
def locate_marker (js : List Char) : Option Nat :=
  match firstOccur markerPat js with
  | none => none
  | some i => some (i + 6)

/-- `extract_js_array` (`tamkart.py` lines 86-118): locate the marker, scan,
    and return `js[start:end]`; `end` falls back to `start` when the loop
    exhausts the text without the break. -/
def extract_js_array (js : List Char) : Option (List Char) :=
  match locate_marker js with
  | none => none
  | some start =>
    let e := (scanLoop (js.drop start) start initScan).getD start
    some ((js.drop start).take (e - start))

/-- The substring `pat` occurs in `l` at index `i`. -/
def occursAt (pat l : List Char) (i : Nat) : Prop :=
  (l.drop i).take pat.length = pat

/-! ### The generic value tree and its JS-literal serialization

`Value` is the generic parse result of the Permissive Literal Parser
(spec section 3): null, booleans, numbers kept as exact decimal text,
strings, ordered lists, and ordered key/value objects.  `serVal` fixes one
valid JS-literal serialization (double-quoted strings, quoted keys, standard
number formatting, no whitespace), used to state the scanner-balance and
parser round-trip properties. -/

/-- Generic value tree produced by the literal parser. -/
inductive Value where
  | null
  | bool (b : Bool)
  | num (s : List Char)
  | str (s : List Char)
  | arr (elems : List Value)
  | obj (members : List (List Char × Value))
deriving Repr

/-- Escape a string body for a `q`-quoted literal: the quote itself and the
    backslash are backslash-escaped, everything else is emitted verbatim. -/
def escBody (q : Char) (body : List Char) : List Char :=
  (body.map (fun c => if c = q || c = '\\' then ['\\', c] else [c])).flatten

/-- Serialize an object key as a double-quoted string. -/
def serKey (k : List Char) : List Char := '"' :: (escBody '"' k ++ ['"'])

mutual

/-- Serialize a value in JS-literal syntax. -/
def serVal : Value → List Char
  | .null => "null".data
  | .bool true => "true".data
  | .bool false => "false".data
  | .num s => s
  | .str b => '"' :: (escBody '"' b ++ ['"'])
  | .arr vs => '[' :: (serItems vs ++ [']'])
  | .obj ms => '\x7b' :: (serMembers ms ++ ['\x7d'])

/-- Serialize array elements, comma-separated. -/
def serItems : List Value → List Char
  | [] => []
  | v :: vs => serVal v ++ serSepItems vs

/-- Continuation of `serItems` after the first element. -/
def serSepItems : List Value → List Char
  | [] => []
  | v :: vs => ',' :: (serVal v ++ serSepItems vs)

/-- Serialize object members, comma-separated. -/
def serMembers : List (List Char × Value) → List Char
  | [] => []
  | (k, v) :: ms => serKey k ++ ':' :: (serVal v ++ serSepMembers ms)

/-- Continuation of `serMembers` after the first member. -/
def serSepMembers : List (List Char × Value) → List Char
  | [] => []
  | (k, v) :: ms => ',' :: (serKey k ++ ':' :: (serVal v ++ serSepMembers ms))

end

/-- Characters that may appear in a number literal. -/
def isNumCh (c : Char) : Bool :=
  c.isDigit || c = '.' || c = '-' || c = '+' || c = 'e' || c = 'E'

/-- Validity of the optional exponent tail of a number literal. -/
def checkExpPart : List Char → Bool
  | [] => true
  | c :: t =>
    if c = 'e' || c = 'E' then
      match t with
      | d :: t2 =>
        let t3 := if d = '+' || d = '-' then t2 else d :: t2
        !(t3.takeWhile Char.isDigit).isEmpty && (t3.dropWhile Char.isDigit).isEmpty
      | [] => false
    else false

/-- Validity of what follows the integer digits of a number literal. -/
def checkAfterInt : List Char → Bool
  | [] => true
  | c :: t => if c = '.' then checkExpPart (t.dropWhile Char.isDigit) else checkExpPart (c :: t)

/-- A standard decimal/integer literal: optional `-`, then digits, then an
    optional fraction and an optional exponent. -/
def checkNum (s : List Char) : Bool :=
  let body := match s with
    | c :: t => if c = '-' then t else c :: t
    | [] => []
  !(body.takeWhile Char.isDigit).isEmpty && checkAfterInt (body.dropWhile Char.isDigit)

mutual

/-- Well-formedness of a value for serialization: every number text is a
    standard numeric literal (over number characters only). -/
def wfV : Value → Bool
  | .null => true
  | .bool _ => true
  | .str _ => true
  | .num s => checkNum s && s.all isNumCh
  | .arr vs => wfItems vs
  | .obj ms => wfMembers ms

/-- Well-formedness of array elements. -/
def wfItems : List Value → Bool
  | [] => true
  | v :: vs => wfV v && wfItems vs

/-- Well-formedness of object member values. -/
def wfMembers : List (List Char × Value) → Bool
  | [] => true
  | (_, v) :: ms => wfV v && wfMembers ms

end

/-! ### The Permissive Literal Parser

Modelled from the spec: the repository's `parse_js_array` (`tamkart.py`
lines 121-134) evaluates the extracted literal with an external Node.js
runtime, so the parser component itself is not present in the sources; the
definitions below follow the grammar of spec section 4.3 (values are objects
with unquoted-or-quoted keys, arrays, single/double/back-quoted
backslash-escaped strings, numbers kept as exact text, `true`/`false`/`null`;
trailing commas and whitespace between tokens are permitted; recursion depth
is bounded by a configurable limit). -/

/-- Whitespace skipped between tokens. -/
def isWsCh (c : Char) : Bool :=
  c = ' ' || c = Char.ofNat 9 || c = Char.ofNat 10 || c = Char.ofNat 13

/-- Skip inter-token whitespace. -/
def skipWs (l : List Char) : List Char := l.dropWhile isWsCh

/-- First character of an unquoted identifier. -/
def identStart (c : Char) : Bool := c.isAlpha || c = '_' || c = '$'

/-- Subsequent characters of an unquoted identifier. -/
def identCh (c : Char) : Bool := c.isAlpha || c.isDigit || c = '_' || c = '$'

/-- Resolution of a backslash escape inside a string literal. -/
def unescCh (c : Char) : Char :=
  if c = 'n' then Char.ofNat 10
  else if c = 't' then Char.ofNat 9
  else if c = 'r' then Char.ofNat 13
  else c

/-- Parse a string body after its opening quote `q`, up to the matching
    unescaped closing quote. -/
def parseStrBody (q : Char) : List Char → Except String (List Char × List Char)
  | [] => .error "unterminated string"
  | c :: t =>
    if c = q then .ok ([], t)
    else if c = '\\' then
      match t with
      | [] => .error "unterminated string escape"
      | d :: t2 =>
        match parseStrBody q t2 with
        | .ok (s, r) => .ok (unescCh d :: s, r)
        | .error e => .error e
    else
      match parseStrBody q t with
      | .ok (s, r) => .ok (c :: s, r)
      | .error e => .error e

/-- Longest run of number characters and the remainder. -/
def numTake (l : List Char) : List Char × List Char :=
  (l.takeWhile isNumCh, l.dropWhile isNumCh)

/-- Longest run of identifier characters and the remainder. -/
def identTake (l : List Char) : List Char × List Char :=
  (l.takeWhile identCh, l.dropWhile identCh)

/-- Parse an object key: a quoted string or an unquoted identifier. -/
def parseKey : List Char → Except String (List Char × List Char)
  | [] => .error "expected object key"
  | c :: t =>
    if c = '"' || c = sq || c = bq then parseStrBody c t
    else if identStart c then .ok (identTake (c :: t))
    else .error "expected object key"

/-- Parse the elements of an array after its `[`, tolerating a trailing comma;
    `pv` parses one value and `fuel` bounds the loop. -/
def parseArrTail (pv : List Char → Except String (Value × List Char)) :
    Nat → List Char → Except String (List Value × List Char)
  | 0, _ => .error "depth limit exceeded"
  | fuel + 1, l =>
    match skipWs l with
    | [] => .error "unterminated array"
    | c :: t =>
      if c = ']' then .ok ([], t)
      else
        match pv (c :: t) with
        | .error e => .error e
        | .ok (v, r) =>
          match skipWs r with
          | [] => .error "unterminated array"
          | c2 :: t2 =>
            if c2 = ',' then
              match parseArrTail pv fuel t2 with
              | .ok (vs, r2) => .ok (v :: vs, r2)
              | .error e => .error e
            else if c2 = ']' then .ok ([v], t2)
            else .error "expected comma or close bracket"

/-- Parse the members of an object after its opening brace, tolerating a
    trailing comma. -/
def parseObjTail (pv : List Char → Except String (Value × List Char)) :
    Nat → List Char → Except String (List (List Char × Value) × List Char)
  | 0, _ => .error "depth limit exceeded"
  | fuel + 1, l =>
    match skipWs l with
    | [] => .error "unterminated object"
    | c :: t =>
      if c = '\x7d' then .ok ([], t)
      else
        match parseKey (c :: t) with
        | .error e => .error e
        | .ok (k, r1) =>
          match skipWs r1 with
          | ':' :: r2 =>
            match pv r2 with
            | .error e => .error e
            | .ok (v, r3) =>
              match skipWs r3 with
              | [] => .error "unterminated object"
              | c2 :: t2 =>
                if c2 = ',' then
                  match parseObjTail pv fuel t2 with
                  | .ok (ms, r4) => .ok ((k, v) :: ms, r4)
                  | .error e => .error e
                else if c2 = '\x7d' then .ok ([(k, v)], t2)
                else .error "expected comma or close brace"
          | _ => .error "expected colon"

/-- Parse one value by recursive descent; `fuel` is the configurable depth
    limit (`DepthExceeded` when exhausted). -/
def parseValue : Nat → List Char → Except String (Value × List Char)
  | 0, _ => .error "depth limit exceeded"
  | fuel + 1, l =>
    match skipWs l with
    | [] => .error "unexpected end of input"
    | c :: t =>
      if c = '"' || c = sq || c = bq then
        match parseStrBody c t with
        | .ok (s, r) => .ok (.str s, r)
        | .error e => .error e
      else if c = '[' then
        match parseArrTail (parseValue fuel) fuel t with
        | .ok (vs, r) => .ok (.arr vs, r)
        | .error e => .error e
      else if c = '\x7b' then
        match parseObjTail (parseValue fuel) fuel t with
        | .ok (ms, r) => .ok (.obj ms, r)
        | .error e => .error e
      else if c.isDigit || c = '-' then
        match numTake (c :: t) with
        | (ds, r) => if checkNum ds then .ok (.num ds, r) else .error "malformed number"
      else if identStart c then
        match identTake (c :: t) with
        | (ds, r) =>
          if ds = "true".data then .ok (.bool true, r)
          else if ds = "false".data then .ok (.bool false, r)
          else if ds = "null".data then .ok (.null, r)
          else .error "unexpected identifier"
      else .error "unexpected character"

/-- Parse a complete literal: one value followed only by whitespace. -/
def parse_js_literal (limit : Nat) (l : List Char) : Except String Value :=
  match parseValue limit l with
  | .error e => .error e
  | .ok (v, r) => if skipWs r = [] then .ok v else .error "trailing characters"

mutual

/-- Fuel measure for the round-trip proof: enough depth budget for
    `parseValue`, and enough loop budget for element/member lists. -/
def sizeV : Value → Nat
  | .null => 1
  | .bool _ => 1
  | .num _ => 1
  | .str _ => 1
  | .arr vs => 1 + sizeItemsV vs
  | .obj ms => 1 + sizeMembersV ms

/-- Fuel measure of array elements. -/
def sizeItemsV : List Value → Nat
  | [] => 1
  | v :: vs => 1 + sizeV v + sizeItemsV vs

/-- Fuel measure of object members. -/
def sizeMembersV : List (List Char × Value) → Nat
  | [] => 1
  | (_, v) :: ms => 1 + sizeV v + sizeMembersV ms

end

/-- A remainder that cannot extend a just-parsed number or identifier:
    empty, or starting with a separator/closer. -/
def noJoinB : List Char → Bool
  | [] => true
  | c :: _ => c = ',' || c = ']' || c = '\x7d'

/-- Head test used to split `takeWhile`/`dropWhile` over an append. -/
def headNot (p : Char → Bool) : List Char → Bool
  | [] => true
  | c :: _ => !p c

/-- First characters a serialized well-formed value can start with. -/
def goodHead (c : Char) : Bool :=
  c = '"' || c = '[' || c = '\x7b' || c.isDigit || c = '-' || c = 'n' || c = 't' || c = 'f'

/-! ### Scanner lemmas: the scan consumes any serialized value at depth ≥ 1 -/

/-- Characters on which the scanner loop is a no-op outside strings. -/
def scanNeutral (c : Char) : Bool :=
  c != '\\' && c != '"' && c != sq && c != bq && c != '[' && c != ']'

/-- A string with no leading or trailing whitespace (stripping is a no-op). -/
@[reducible] def noLT (s : String) : Prop := pyStrip s = s

/-- Every string field of a record is free of leading/trailing whitespace. -/
def recClean (p : PartnerRec) : Prop :=
  noLT p.source ∧ noLT p.id ∧ noLT p.name ∧ noLT p.category ∧ noLT p.cashback ∧
  noLT p.reward_type ∧ noLT p.taksit_months ∧ noLT p.city ∧ noLT p.address ∧
  noLT p.phone ∧ noLT p.website ∧ noLT p.image_url

/-- `tenPowGE k c` decides exactly `c ≤ 10 ^ k`. -/
theorem tenPowGE_le_iff : ∀ (k c : Nat), tenPowGE k c = true ↔ c ≤ 10 ^ k
  | 0, c => by simp [tenPowGE]
  | k + 1, c => by
    rw [tenPowGE]
    by_cases h1 : c ≤ 1
    · rw [if_pos h1]
      have hp : 1 ≤ 10 ^ (k + 1) := Nat.one_le_pow _ _ (by norm_num)
      simp only [true_iff]
      omega
    · rw [if_neg h1, tenPowGE_le_iff k ((c + 9) / 10),
        Nat.div_le_iff_le_mul_add_pred (by norm_num : 0 < 10), pow_succ]
      omega

/-- On finite results, `pyNumPos` decides exactly whether the exact value
    exceeds the rounding threshold `2 ^ (-1075)` — that is, whether the
    IEEE-754 double `float` returns compares strictly greater than zero. -/
theorem pyNumPos_fin_iff (neg : Bool) (m : Nat) (e : Int) :
    pyNumPos (.fin neg m e) = true ↔ (2 : ℚ) ^ (-1075 : Int) < finVal neg m e := by
  have hthr_eq : (2 : ℚ) ^ (-1075 : Int) = 1 / (2 : ℚ) ^ (1075 : Nat) := by
    rw [show (-1075 : Int) = -((1075 : Nat) : Int) from rfl, zpow_neg, zpow_natCast,
      one_div]
  have h2pos : (0 : ℚ) < (2 : ℚ) ^ (1075 : Nat) := by positivity
  have hthr0 : (0 : ℚ) < (2 : ℚ) ^ (-1075 : Int) := zpow_pos (by norm_num) _
  have hthr1 : (2 : ℚ) ^ (-1075 : Int) < 1 := by
    rw [hthr_eq, div_lt_one h2pos]
    exact one_lt_pow₀ (by norm_num) (by norm_num)
  have hpow : (0 : ℚ) < (10 : ℚ) ^ e := zpow_pos (by norm_num) e
  cases neg with
  | false =>
    have h1 : finVal false m e = (m : ℚ) * (10 : ℚ) ^ e := by
      simp [finVal]
    rw [h1]
    simp only [pyNumPos, Bool.not_false, Bool.true_and]
    by_cases he : (0 : Int) ≤ e
    · rw [if_pos he]
      simp only [bne_iff_ne, ne_eq]
      constructor
      · intro hm
        have hq : (1 : ℚ) ≤ (m : ℚ) := by
          exact_mod_cast Nat.one_le_iff_ne_zero.mpr hm
        have hpe : (1 : ℚ) ≤ (10 : ℚ) ^ e := one_le_zpow₀ (by norm_num) he
        have h1m : (1 : ℚ) * 1 ≤ (m : ℚ) * (10 : ℚ) ^ e :=
          mul_le_mul hq hpe zero_le_one (le_trans zero_le_one hq)
        rw [one_mul] at h1m
        linarith
      · intro h hme
        rw [hme] at h
        simp at h
        linarith
    · rw [if_neg he]
      have hk : e = -(((-e).toNat : Nat) : Int) := by omega
      set k := (-e).toNat with hkdef
      have hbool : ((!(tenPowGE k (m * 2 ^ 1075))) = true) ↔ 10 ^ k < m * 2 ^ 1075 := by
        rw [Bool.not_eq_true', ← Bool.not_eq_true, tenPowGE_le_iff, Nat.not_le]
      rw [hbool]
      have h10k : (0 : ℚ) < (10 : ℚ) ^ (k : Nat) := by positivity
      have hval : (m : ℚ) * (10 : ℚ) ^ e = (m : ℚ) / (10 : ℚ) ^ (k : Nat) := by
        rw [hk, zpow_neg, zpow_natCast, div_eq_mul_inv]
      rw [hval, hthr_eq, div_lt_div_iff₀ h2pos h10k, one_mul,
        show ((10 : ℚ) ^ (k : Nat)) = ((10 ^ k : Nat) : ℚ) by push_cast; ring,
        show ((m : ℚ) * (2 : ℚ) ^ (1075 : Nat)) = ((m * 2 ^ 1075 : Nat) : ℚ) by
          push_cast; ring]
      exact Nat.cast_lt.symm
  | true =>
    clear hthr_eq h2pos hthr1
    have h1 : finVal true m e = -((m : ℚ) * (10 : ℚ) ^ e) := by
      simp [finVal]
    rw [h1]
    simp only [pyNumPos, Bool.not_true, Bool.false_and]
    constructor
    · intro h; cases h
    · intro h
      exfalso
      have hm0 : (0 : ℚ) ≤ (m : ℚ) * (10 : ℚ) ^ e :=
        mul_nonneg (Nat.cast_nonneg m) (le_of_lt hpow)
      linarith

theorem isPrefixOf_iff_take : ∀ (p l : List Char),
    p.isPrefixOf l = true ↔ l.take p.length = p
  | [], l => by simp [List.isPrefixOf]
  | a :: p', [] => by simp [List.isPrefixOf]
  | a :: p', b :: l' => by
    simp only [List.isPrefixOf, List.length_cons, List.take_succ_cons,
      Bool.and_eq_true, beq_iff_eq, List.cons.injEq]
    constructor
    · rintro ⟨rfl, h⟩
      exact ⟨rfl, (isPrefixOf_iff_take p' l').mp h⟩
    · rintro ⟨rfl, h⟩
      exact ⟨rfl, (isPrefixOf_iff_take p' l').mpr h⟩

theorem firstOccur_some_occursAt (pat : List Char) :
    ∀ (l : List Char) (i : Nat), firstOccur pat l = some i → occursAt pat l i := by
  intro l
  induction l with
  | nil =>
    intro i h
    simp only [firstOccur] at h
    by_cases hp : pat.isPrefixOf [] = true
    · rw [if_pos hp] at h
      cases h
      exact (isPrefixOf_iff_take pat []).mp hp
    · rw [if_neg hp] at h
      cases h
  | cons c t ih =>
    intro i h
    simp only [firstOccur] at h
    by_cases hp : pat.isPrefixOf (c :: t) = true
    · rw [if_pos hp] at h
      cases h
      exact (isPrefixOf_iff_take pat (c :: t)).mp hp
    · rw [if_neg hp, Option.map_eq_some'] at h
      obtain ⟨j, hj, rfl⟩ := h
      exact ih j hj

theorem firstOccur_none_not_occursAt (pat : List Char) :
    ∀ (l : List Char), firstOccur pat l = none → ∀ i, ¬ occursAt pat l i := by
  intro l
  induction l with
  | nil =>
    intro h i hocc
    unfold occursAt at hocc
    simp only [List.drop_nil, List.take_nil] at hocc
    subst hocc
    simp [firstOccur, List.isPrefixOf] at h
  | cons c t ih =>
    intro h i hocc
    simp only [firstOccur] at h
    by_cases hp : pat.isPrefixOf (c :: t) = true
    · rw [if_pos hp] at h
      cases h
    · rw [if_neg hp] at h
      match i with
      | 0 =>
        have : pat.isPrefixOf (c :: t) = true :=
          (isPrefixOf_iff_take pat (c :: t)).mpr (by simpa [occursAt] using hocc)
        exact hp this
      | j + 1 =>
        have ht : firstOccur pat t = none := by
          cases hft : firstOccur pat t with
          | none => rfl
          | some k => rw [hft] at h; simp at h
        exact ih ht j (by simpa [occursAt, List.drop_succ_cons] using hocc)

theorem scanStep_neutral {ch : Char} (h : scanNeutral ch = true)
    (i : Nat) (d : Int) (sc : Char) :
    scanStep ⟨d, false, false, sc⟩ i ch = .inl ⟨d, false, false, sc⟩ := by
  simp only [scanNeutral, Bool.and_eq_true, bne_iff_ne, ne_eq] at h
  obtain ⟨⟨⟨⟨⟨h1, h2⟩, h3⟩, h4⟩, h5⟩, h6⟩ := h
  simp [scanStep, h1, h2, h3, h4, h5, h6]

theorem scanLoop_neutral_cons {ch : Char} (h : scanNeutral ch = true)
    (t : List Char) (i : Nat) (d : Int) (sc : Char) :
    scanLoop (ch :: t) i ⟨d, false, false, sc⟩ = scanLoop t (i + 1) ⟨d, false, false, sc⟩ := by
  simp [scanLoop, scanStep_neutral h]

theorem scanLoop_neutral_run :
    ∀ (l : List Char), l.all scanNeutral = true →
    ∀ (rest : List Char) (i : Nat) (d : Int) (sc : Char),
    scanLoop (l ++ rest) i ⟨d, false, false, sc⟩
      = scanLoop rest (i + l.length) ⟨d, false, false, sc⟩ := by
  intro l
  induction l with
  | nil => intro _ rest i d sc; simp
  | cons c t ih =>
    intro h rest i d sc
    simp only [List.all_cons, Bool.and_eq_true] at h
    rw [List.cons_append, scanLoop_neutral_cons h.1, ih h.2]
    congr 1
    simp only [List.length_cons]
    omega

/-- The scanner ignores the stale `str_char` while outside a string. -/
theorem scanLoop_strChar_irrel :
    ∀ (l : List Char) (i : Nat) (d : Int) (esc : Bool) (sc sc' : Char),
    scanLoop l i ⟨d, false, esc, sc⟩ = scanLoop l i ⟨d, false, esc, sc'⟩ := by
  intro l
  induction l with
  | nil => intro i d esc sc sc'; rfl
  | cons ch t ih =>
    intro i d esc sc sc'
    cases esc with
    | true =>
      simp only [scanLoop, scanStep]
      exact ih (i + 1) d false sc sc'
    | false =>
      by_cases hb : ch = '\\'
      · subst hb
        simp only [scanLoop, scanStep, if_neg (by simp : ¬(false = true)), if_pos rfl]
        exact ih (i + 1) d true sc sc'
      · by_cases hq : ch = '"' || ch = sq || ch = bq
        · simp only [scanLoop, scanStep, if_neg (by simp : ¬(false = true)), if_neg hb,
            if_pos hq]
        · by_cases ho : ch = '['
          · subst ho
            simp only [scanLoop, scanStep, if_neg (by simp : ¬(false = true)),
              if_neg hb, if_neg hq, if_pos rfl]
            exact ih (i + 1) (d + 1) false sc sc'
          · by_cases hc : ch = ']'
            · subst hc
              simp only [scanLoop, scanStep, if_neg (by simp : ¬(false = true)),
                if_neg hb, if_neg hq, if_neg ho, if_pos rfl]
              by_cases hd : d - 1 = 0
              · simp [hd]
              · simp only [if_neg hd]
                exact ih (i + 1) (d - 1) false sc sc'
            · simp only [scanLoop, scanStep, if_neg (by simp : ¬(false = true)),
                if_neg hb, if_neg hq, if_neg ho, if_neg hc]
              exact ih (i + 1) d false sc sc'

/-- Inside a string, an escaped body advances the scan without leaving
    string mode or touching the depth. -/
theorem scanLoop_strBody :
    ∀ (body rest : List Char) (i : Nat) (d : Int) (q : Char),
    scanLoop (escBody q body ++ rest) i ⟨d, true, false, q⟩
      = scanLoop rest (i + (escBody q body).length) ⟨d, true, false, q⟩ := by
  intro body
  induction body with
  | nil => intro rest i d q; simp [escBody]
  | cons c b ih =>
    intro rest i d q
    by_cases hc : c = q ∨ c = '\\'
    · have hb : (decide (c = q) || decide (c = '\\')) = true := by
        rcases hc with h | h <;> simp [h]
      have hesc : escBody q (c :: b) = '\\' :: c :: escBody q b := by
        simp only [escBody, List.map_cons, List.flatten_cons, hb]
        simp
      rw [hesc]
      simp only [List.cons_append]
      rw [show scanLoop ('\\' :: (c :: (escBody q b ++ rest))) i ⟨d, true, false, q⟩
            = scanLoop (c :: (escBody q b ++ rest)) (i + 1) ⟨d, true, true, q⟩ from by
        simp [scanLoop, scanStep]]
      rw [show scanLoop (c :: (escBody q b ++ rest)) (i + 1) ⟨d, true, true, q⟩
            = scanLoop (escBody q b ++ rest) (i + 2) ⟨d, true, false, q⟩ from by
        simp [scanLoop, scanStep]]
      rw [ih]
      congr 1
      simp only [hesc, List.length_cons]
      omega
    · push_neg at hc
      have hb : (decide (c = q) || decide (c = '\\')) = false := by
        simp [hc.1, hc.2]
      have hesc : escBody q (c :: b) = c :: escBody q b := by
        simp only [escBody, List.map_cons, List.flatten_cons, hb]
        simp
      rw [hesc]
      simp only [List.cons_append]
      rw [show scanLoop (c :: (escBody q b ++ rest)) i ⟨d, true, false, q⟩
            = scanLoop (escBody q b ++ rest) (i + 1) ⟨d, true, false, q⟩ from by
        simp [scanLoop, scanStep, hc.1, hc.2]]
      rw [ih]
      congr 1
      simp only [hesc, List.length_cons]
      omega

/-- A double-quoted serialized string is consumed whole by the scanner,
    returning to the same out-of-string state. -/
theorem scanLoop_quoted :
    ∀ (b rest : List Char) (i : Nat) (d : Int) (sc : Char),
    scanLoop (('"' :: (escBody '"' b ++ ['"'])) ++ rest) i ⟨d, false, false, sc⟩
      = scanLoop rest (i + ((escBody '"' b).length + 2)) ⟨d, false, false, sc⟩ := by
  intro b rest i d sc
  have hshape : ('"' :: (escBody '"' b ++ ['"'])) ++ rest
      = '"' :: (escBody '"' b ++ ('"' :: rest)) := by
    simp
  rw [hshape]
  rw [show scanLoop ('"' :: (escBody '"' b ++ ('"' :: rest))) i ⟨d, false, false, sc⟩
        = scanLoop (escBody '"' b ++ ('"' :: rest)) (i + 1) ⟨d, true, false, '"'⟩ from by
    simp [scanLoop, scanStep]]
  rw [scanLoop_strBody]
  rw [show scanLoop ('"' :: rest) (i + 1 + (escBody '"' b).length) ⟨d, true, false, '"'⟩
        = scanLoop rest (i + 1 + (escBody '"' b).length + 1) ⟨d, false, false, '"'⟩ from by
    simp [scanLoop, scanStep]]
  rw [scanLoop_strChar_irrel rest _ d false '"' sc]
  congr 1
  omega

theorem scanLoop_cons_open (t : List Char) (i : Nat) (d : Int) (sc : Char) :
    scanLoop ('[' :: t) i ⟨d, false, false, sc⟩
      = scanLoop t (i + 1) ⟨d + 1, false, false, sc⟩ := by
  simp [scanLoop, scanStep, sq, bq]

theorem scanLoop_cons_close_go (t : List Char) (i : Nat) (d : Int) (sc : Char)
    (hd : ¬ d = 1) :
    scanLoop (']' :: t) i ⟨d, false, false, sc⟩
      = scanLoop t (i + 1) ⟨d - 1, false, false, sc⟩ := by
  have h0 : ¬ (d - 1 = 0) := by omega
  simp [scanLoop, scanStep, sq, bq, h0]

theorem scanLoop_cons_close_end (t : List Char) (i : Nat) (sc : Char) :
    scanLoop (']' :: t) i ⟨1, false, false, sc⟩ = some (i + 1) := by
  simp [scanLoop, scanStep, sq, bq]

theorem digit_scanNeutral (c : Char) (h : c.isDigit = true) : scanNeutral c = true := by
  simp only [scanNeutral, Bool.and_eq_true, bne_iff_ne, ne_eq]
  refine ⟨⟨⟨⟨⟨?_, ?_⟩, ?_⟩, ?_⟩, ?_⟩, ?_⟩ <;> intro heq <;> rw [heq] at h <;>
    exact absurd h (by decide)

theorem numCh_scanNeutral (c : Char) (h : isNumCh c = true) : scanNeutral c = true := by
  simp only [isNumCh, Bool.or_eq_true, decide_eq_true_eq] at h
  rcases h with ((((hd | h) | h) | h) | h) | h
  · exact digit_scanNeutral c hd
  all_goals (subst h; decide)

theorem all_numCh_scanNeutral (s : List Char) (h : s.all isNumCh = true) :
    s.all scanNeutral = true := by
  rw [List.all_eq_true] at h ⊢
  intro c hc
  exact numCh_scanNeutral c (h c hc)

mutual

theorem scanVal_consume : ∀ (v : Value) (rest : List Char) (i : Nat) (d : Int) (sc : Char),
    wfV v = true → 1 ≤ d →
    scanLoop (serVal v ++ rest) i ⟨d, false, false, sc⟩
      = scanLoop rest (i + (serVal v).length) ⟨d, false, false, sc⟩
  | .null, rest, i, d, sc, _, _ => by
    have h := scanLoop_neutral_run ['n', 'u', 'l', 'l'] (by decide) rest i d sc
    simpa [serVal] using h
  | .bool true, rest, i, d, sc, _, _ => by
    have h := scanLoop_neutral_run ['t', 'r', 'u', 'e'] (by decide) rest i d sc
    simpa [serVal] using h
  | .bool false, rest, i, d, sc, _, _ => by
    have h := scanLoop_neutral_run ['f', 'a', 'l', 's', 'e'] (by decide) rest i d sc
    simpa [serVal] using h
  | .num s, rest, i, d, sc, hwf, _ => by
    simp only [wfV, Bool.and_eq_true] at hwf
    have h := scanLoop_neutral_run s (all_numCh_scanNeutral s hwf.2) rest i d sc
    simpa [serVal] using h
  | .str b, rest, i, d, sc, _, _ => by
    rw [show serVal (.str b) = '"' :: (escBody '"' b ++ ['"']) from rfl, scanLoop_quoted]
    congr 1
    simp [serVal]
  | .arr vs, rest, i, d, sc, hwf, hd => by
    have hshape : serVal (.arr vs) ++ rest = '[' :: (serItems vs ++ (']' :: rest)) := by
      simp [serVal]
    rw [hshape, scanLoop_cons_open,
      scanItems_consume vs (']' :: rest) (i + 1) (d + 1) sc hwf (by omega),
      scanLoop_cons_close_go _ _ _ _ (by omega)]
    have hde : d + 1 - 1 = d := by ring
    rw [hde]
    congr 1
    simp [serVal]
    omega
  | .obj ms, rest, i, d, sc, hwf, hd => by
    have hshape : serVal (.obj ms) ++ rest
        = '\x7b' :: (serMembers ms ++ ('\x7d' :: rest)) := by
      simp [serVal]
    rw [hshape, scanLoop_neutral_cons (by decide),
      scanMembers_consume ms ('\x7d' :: rest) (i + 1) d sc hwf hd,
      scanLoop_neutral_cons (by decide)]
    congr 1
    simp [serVal]
    omega

theorem scanItems_consume : ∀ (vs : List Value) (rest : List Char) (i : Nat) (d : Int)
    (sc : Char), wfV (.arr vs) = true → 1 ≤ d →
    scanLoop (serItems vs ++ rest) i ⟨d, false, false, sc⟩
      = scanLoop rest (i + (serItems vs).length) ⟨d, false, false, sc⟩
  | [], rest, i, d, sc, _, _ => by simp [serItems]
  | v :: vs, rest, i, d, sc, hwf, hd => by
    simp only [wfV, wfItems, Bool.and_eq_true] at hwf
    have hshape : serItems (v :: vs) ++ rest = serVal v ++ (serSepItems vs ++ rest) := by
      simp [serItems]
    rw [hshape, scanVal_consume v _ i d sc hwf.1 hd,
      scanSepItems_consume vs rest _ d sc (by simp only [wfV]; exact hwf.2) hd]
    congr 1
    simp [serItems]
    omega

theorem scanSepItems_consume : ∀ (vs : List Value) (rest : List Char) (i : Nat) (d : Int)
    (sc : Char), wfV (.arr vs) = true → 1 ≤ d →
    scanLoop (serSepItems vs ++ rest) i ⟨d, false, false, sc⟩
      = scanLoop rest (i + (serSepItems vs).length) ⟨d, false, false, sc⟩
  | [], rest, i, d, sc, _, _ => by simp [serSepItems]
  | v :: vs, rest, i, d, sc, hwf, hd => by
    simp only [wfV, wfItems, Bool.and_eq_true] at hwf
    have hshape : serSepItems (v :: vs) ++ rest
        = ',' :: (serVal v ++ (serSepItems vs ++ rest)) := by
      simp [serSepItems]
    rw [hshape, scanLoop_neutral_cons (by decide),
      scanVal_consume v _ (i + 1) d sc hwf.1 hd,
      scanSepItems_consume vs rest _ d sc (by simp only [wfV]; exact hwf.2) hd]
    congr 1
    simp [serSepItems]
    omega

theorem scanMembers_consume : ∀ (ms : List (List Char × Value)) (rest : List Char)
    (i : Nat) (d : Int) (sc : Char), wfV (.obj ms) = true → 1 ≤ d →
    scanLoop (serMembers ms ++ rest) i ⟨d, false, false, sc⟩
      = scanLoop rest (i + (serMembers ms).length) ⟨d, false, false, sc⟩
  | [], rest, i, d, sc, _, _ => by simp [serMembers]
  | (k, v) :: ms, rest, i, d, sc, hwf, hd => by
    simp only [wfV, wfMembers, Bool.and_eq_true] at hwf
    have hshape : serMembers ((k, v) :: ms) ++ rest
        = ('"' :: (escBody '"' k ++ ['"']))
            ++ (':' :: (serVal v ++ (serSepMembers ms ++ rest))) := by
      simp [serMembers, serKey]
    rw [hshape, scanLoop_quoted, scanLoop_neutral_cons (by decide),
      scanVal_consume v _ _ d sc hwf.1 hd,
      scanSepMembers_consume ms rest _ d sc (by simp only [wfV]; exact hwf.2) hd]
    congr 1
    simp [serMembers, serKey]
    omega

theorem scanSepMembers_consume : ∀ (ms : List (List Char × Value)) (rest : List Char)
    (i : Nat) (d : Int) (sc : Char), wfV (.obj ms) = true → 1 ≤ d →
    scanLoop (serSepMembers ms ++ rest) i ⟨d, false, false, sc⟩
      = scanLoop rest (i + (serSepMembers ms).length) ⟨d, false, false, sc⟩
  | [], rest, i, d, sc, _, _ => by simp [serSepMembers]
  | (k, v) :: ms, rest, i, d, sc, hwf, hd => by
    simp only [wfV, wfMembers, Bool.and_eq_true] at hwf
    have hshape : serSepMembers ((k, v) :: ms) ++ rest
        = ',' :: (('"' :: (escBody '"' k ++ ['"']))
            ++ (':' :: (serVal v ++ (serSepMembers ms ++ rest)))) := by
      simp [serSepMembers, serKey]
    rw [hshape, scanLoop_neutral_cons (by decide), scanLoop_quoted,
      scanLoop_neutral_cons (by decide),
      scanVal_consume v _ _ d sc hwf.1 hd,
      scanSepMembers_consume ms rest _ d sc (by simp only [wfV]; exact hwf.2) hd]
    congr 1
    simp [serSepMembers, serKey]
    omega

end

/-! ### Parser round-trip: support lemmas -/

theorem escBody_cons_esc (q c : Char) (b : List Char) (h : c = q ∨ c = '\\') :
    escBody q (c :: b) = '\\' :: c :: escBody q b := by
  have hb : (decide (c = q) || decide (c = '\\')) = true := by
    rcases h with h | h <;> simp [h]
  simp only [escBody, List.map_cons, List.flatten_cons, hb]
  simp

theorem escBody_cons_raw (q c : Char) (b : List Char) (h1 : ¬ c = q) (h2 : ¬ c = '\\') :
    escBody q (c :: b) = c :: escBody q b := by
  have hb : (decide (c = q) || decide (c = '\\')) = false := by
    simp [h1, h2]
  simp only [escBody, List.map_cons, List.flatten_cons, hb]
  simp

theorem skipWs_cons_not {c : Char} (h : isWsCh c = false) (t : List Char) :
    skipWs (c :: t) = c :: t := by
  simp [skipWs, List.dropWhile_cons, h]

theorem takeWhile_app (p : Char → Bool) :
    ∀ (l r : List Char), l.all p = true → headNot p r = true →
    (l ++ r).takeWhile p = l := by
  intro l
  induction l with
  | nil =>
    intro r _ hr
    cases r with
    | nil => rfl
    | cons c t =>
      simp only [headNot, Bool.not_eq_true'] at hr
      simp [List.takeWhile_cons, hr]
  | cons c l' ih =>
    intro r hl hr
    simp only [List.all_cons, Bool.and_eq_true] at hl
    simp [List.takeWhile_cons, hl.1, ih r hl.2 hr]

theorem dropWhile_app (p : Char → Bool) :
    ∀ (l r : List Char), l.all p = true → headNot p r = true →
    (l ++ r).dropWhile p = r := by
  intro l
  induction l with
  | nil =>
    intro r _ hr
    cases r with
    | nil => rfl
    | cons c t =>
      simp only [headNot, Bool.not_eq_true'] at hr
      simp [List.dropWhile_cons, hr]
  | cons c l' ih =>
    intro r hl hr
    simp only [List.all_cons, Bool.and_eq_true] at hl
    simp [List.dropWhile_cons, hl.1, ih r hl.2 hr]

theorem noJoinB_headNot_num {r : List Char} (h : noJoinB r = true) :
    headNot isNumCh r = true := by
  cases r with
  | nil => rfl
  | cons c t =>
    simp only [noJoinB, Bool.or_eq_true, decide_eq_true_eq] at h
    rcases h with (h | h) | h <;> (subst h; rfl)

theorem noJoinB_headNot_ident {r : List Char} (h : noJoinB r = true) :
    headNot identCh r = true := by
  cases r with
  | nil => rfl
  | cons c t =>
    simp only [noJoinB, Bool.or_eq_true, decide_eq_true_eq] at h
    rcases h with (h | h) | h <;> (subst h; rfl)

theorem digit_class (c : Char) (h : c.isDigit = true) :
    isWsCh c = false ∧ ¬ c = '"' ∧ ¬ c = sq ∧ ¬ c = bq ∧ ¬ c = '[' ∧
    ¬ c = '\x7b' ∧ ¬ c = ']' ∧ ¬ c = '\x7d' ∧ ¬ c = ',' ∧ ¬ c = ':' := by
  have hsp : ¬ c = ' ' := by intro heq; rw [heq] at h; exact absurd h (by decide)
  have h9 : ¬ c = Char.ofNat 9 := by intro heq; rw [heq] at h; exact absurd h (by decide)
  have h10 : ¬ c = Char.ofNat 10 := by intro heq; rw [heq] at h; exact absurd h (by decide)
  have h13 : ¬ c = Char.ofNat 13 := by intro heq; rw [heq] at h; exact absurd h (by decide)
  refine ⟨by simp [isWsCh, hsp, h9, h10, h13], ?_, ?_, ?_, ?_, ?_, ?_, ?_, ?_, ?_⟩ <;>
    (intro heq; rw [heq] at h; exact absurd h (by decide))

theorem goodHead_class (c : Char) (h : goodHead c = true) :
    isWsCh c = false ∧ ¬ c = ']' ∧ ¬ c = '\x7d' ∧ ¬ c = ',' ∧ ¬ c = ':' := by
  simp only [goodHead, Bool.or_eq_true, decide_eq_true_eq] at h
  rcases h with ((((((h | h) | h) | hd) | h) | h) | h) | h
  · subst h; exact ⟨by decide, by decide, by decide, by decide, by decide⟩
  · subst h; exact ⟨by decide, by decide, by decide, by decide, by decide⟩
  · subst h; exact ⟨by decide, by decide, by decide, by decide, by decide⟩
  · obtain ⟨hw, _, _, _, _, _, hr, hbr, hcm, hco⟩ := digit_class c hd
    exact ⟨hw, hr, hbr, hcm, hco⟩
  · subst h; exact ⟨by decide, by decide, by decide, by decide, by decide⟩
  · subst h; exact ⟨by decide, by decide, by decide, by decide, by decide⟩
  · subst h; exact ⟨by decide, by decide, by decide, by decide, by decide⟩
  · subst h; exact ⟨by decide, by decide, by decide, by decide, by decide⟩

theorem checkNum_head {s : List Char} (h : checkNum s = true) :
    ∃ c t, s = c :: t ∧ (c.isDigit || c = '-') = true := by
  match s with
  | [] => simp [checkNum] at h
  | c :: t =>
    by_cases hc : c = '-'
    · exact ⟨c, t, rfl, by simp [hc]⟩
    · refine ⟨c, t, rfl, ?_⟩
      by_cases hd : c.isDigit = true
      · simp [hd]
      · exfalso
        simp only [checkNum, if_neg hc, Bool.and_eq_true, Bool.not_eq_true'] at h
        rw [List.takeWhile_cons, if_neg (by simp [hd])] at h
        simp at h

theorem serVal_head (v : Value) (hwf : wfV v = true) :
    ∃ c t, serVal v = c :: t ∧ goodHead c = true := by
  cases v with
  | null => exact ⟨'n', _, rfl, by decide⟩
  | bool b => cases b with
    | true => exact ⟨'t', _, rfl, by decide⟩
    | false => exact ⟨'f', _, rfl, by decide⟩
  | str b => exact ⟨'"', _, rfl, by decide⟩
  | arr vs => exact ⟨'[', _, rfl, by decide⟩
  | obj ms => exact ⟨'\x7b', _, rfl, by decide⟩
  | num s =>
    simp only [wfV, Bool.and_eq_true] at hwf
    obtain ⟨c, t, rfl, hct⟩ := checkNum_head hwf.1
    refine ⟨c, t, rfl, ?_⟩
    simp only [goodHead, Bool.or_eq_true, decide_eq_true_eq]
    simp only [Bool.or_eq_true, decide_eq_true_eq] at hct
    rcases hct with hd | hm
    · simp [hd]
    · simp [hm]

theorem parseStrBody_ser : ∀ (b rest : List Char),
    parseStrBody '"' (escBody '"' b ++ ('"' :: rest)) = .ok (b, rest) := by
  intro b
  induction b with
  | nil =>
    intro rest
    rw [show escBody '"' [] = [] from rfl, List.nil_append, parseStrBody.eq_def]
    simp
  | cons c b' ih =>
    intro rest
    by_cases hc : c = '"' ∨ c = '\\'
    · rw [escBody_cons_esc '"' c b' hc]
      simp only [List.cons_append]
      rw [show parseStrBody '"' ('\\' :: (c :: (escBody '"' b' ++ ('"' :: rest))))
            = (match parseStrBody '"' (escBody '"' b' ++ ('"' :: rest)) with
               | .ok (s, r) => .ok (unescCh c :: s, r)
               | .error e => .error e) from by
        rw [parseStrBody.eq_def]
        simp]
      rw [ih rest]
      have hu : unescCh c = c := by
        rcases hc with h | h <;> (subst h; rfl)
      simp [hu]
    · push_neg at hc
      rw [escBody_cons_raw '"' c b' hc.1 hc.2]
      simp only [List.cons_append]
      rw [show parseStrBody '"' (c :: (escBody '"' b' ++ ('"' :: rest)))
            = (match parseStrBody '"' (escBody '"' b' ++ ('"' :: rest)) with
               | .ok (s, r) => .ok (c :: s, r)
               | .error e => .error e) from by
        rw [parseStrBody.eq_def]
        simp [hc.1, hc.2]]
      rw [ih rest]

theorem parseKey_ser (k X : List Char) : parseKey (serKey k ++ X) = .ok (k, X) := by
  have hshape : serKey k ++ X = '"' :: (escBody '"' k ++ ('"' :: X)) := by
    simp [serKey]
  rw [hshape]
  simp [parseKey, parseStrBody_ser]

theorem sizeV_pos : ∀ v : Value, 1 ≤ sizeV v := by
  intro v
  cases v <;> simp [sizeV]

theorem sizeItemsV_len : ∀ vs : List Value, vs.length + 1 ≤ sizeItemsV vs := by
  intro vs
  induction vs with
  | nil => simp [sizeItemsV]
  | cons v vs ih =>
    have := sizeV_pos v
    simp only [sizeItemsV, List.length_cons]
    omega

theorem sizeItemsV_elem : ∀ (vs : List Value) (v : Value), v ∈ vs →
    sizeV v + 2 ≤ sizeItemsV vs := by
  intro vs
  induction vs with
  | nil => intro v hv; cases hv
  | cons w ws ih =>
    intro v hv
    rcases List.mem_cons.mp hv with rfl | hv
    · have h2 : 1 ≤ sizeItemsV ws := by
        cases ws with
        | nil => simp [sizeItemsV]
        | cons x xs => simp [sizeItemsV]; have := sizeV_pos x; omega
      simp only [sizeItemsV]
      omega
    · have := ih v hv
      have := sizeV_pos w
      simp only [sizeItemsV]
      omega

theorem sizeMembersV_len : ∀ ms : List (List Char × Value), ms.length + 1 ≤ sizeMembersV ms := by
  intro ms
  induction ms with
  | nil => simp [sizeMembersV]
  | cons kv ms ih =>
    obtain ⟨k, v⟩ := kv
    have := sizeV_pos v
    simp only [sizeMembersV, List.length_cons]
    omega

theorem sizeMembersV_elem : ∀ (ms : List (List Char × Value)) (kv : List Char × Value),
    kv ∈ ms → sizeV kv.2 + 2 ≤ sizeMembersV ms := by
  intro ms
  induction ms with
  | nil => intro kv hkv; cases hkv
  | cons kw ms ih =>
    intro kv hkv
    obtain ⟨k0, w⟩ := kw
    rcases List.mem_cons.mp hkv with rfl | hkv
    · have h2 : 1 ≤ sizeMembersV ms := by
        cases ms with
        | nil => simp [sizeMembersV]
        | cons x xs =>
          obtain ⟨xk, xv⟩ := x
          simp [sizeMembersV]; have := sizeV_pos xv; omega
      simp only [sizeMembersV]
      omega
    · have := ih kv hkv
      have := sizeV_pos w
      simp only [sizeMembersV]
      omega

theorem wfItems_elem : ∀ (vs : List Value), wfItems vs = true → ∀ v ∈ vs, wfV v = true := by
  intro vs
  induction vs with
  | nil => intro _ v hv; cases hv
  | cons w ws ih =>
    intro h v hv
    simp only [wfItems, Bool.and_eq_true] at h
    rcases List.mem_cons.mp hv with rfl | hv
    · exact h.1
    · exact ih h.2 v hv

theorem wfMembers_elem : ∀ (ms : List (List Char × Value)), wfMembers ms = true →
    ∀ kv ∈ ms, wfV kv.2 = true := by
  intro ms
  induction ms with
  | nil => intro _ kv hkv; cases hkv
  | cons kw ms ih =>
    intro h kv hkv
    obtain ⟨k0, w⟩ := kw
    simp only [wfMembers, Bool.and_eq_true] at h
    rcases List.mem_cons.mp hkv with rfl | hkv
    · exact h.1
    · exact ih h.2 kv hkv

theorem noJoinB_sepItems (vs : List Value) (rest : List Char) :
    noJoinB (serSepItems vs ++ (']' :: rest)) = true := by
  cases vs with
  | nil => rfl
  | cons v vs => rfl

theorem noJoinB_sepMembers (ms : List (List Char × Value)) (rest : List Char) :
    noJoinB (serSepMembers ms ++ ('\x7d' :: rest)) = true := by
  cases ms with
  | nil => rfl
  | cons kv ms => obtain ⟨k, v⟩ := kv; rfl

theorem parseArrTail_step (pv : List Char → Except String (Value × List Char))
    (fuel : Nat) (l : List Char) :
    parseArrTail pv (fuel + 1) l
      = (match skipWs l with
         | [] => .error "unterminated array"
         | c :: t =>
           if c = ']' then .ok ([], t)
           else
             match pv (c :: t) with
             | .error e => .error e
             | .ok (v, r) =>
               match skipWs r with
               | [] => .error "unterminated array"
               | c2 :: t2 =>
                 if c2 = ',' then
                   match parseArrTail pv fuel t2 with
                   | .ok (vs, r2) => .ok (v :: vs, r2)
                   | .error e => .error e
                 else if c2 = ']' then .ok ([v], t2)
                 else .error "expected comma or close bracket") := rfl

theorem parseObjTail_step (pv : List Char → Except String (Value × List Char))
    (fuel : Nat) (l : List Char) :
    parseObjTail pv (fuel + 1) l
      = (match skipWs l with
         | [] => .error "unterminated object"
         | c :: t =>
           if c = '\x7d' then .ok ([], t)
           else
             match parseKey (c :: t) with
             | .error e => .error e
             | .ok (k, r1) =>
               match skipWs r1 with
               | ':' :: r2 =>
                 match pv r2 with
                 | .error e => .error e
                 | .ok (v, r3) =>
                   match skipWs r3 with
                   | [] => .error "unterminated object"
                   | c2 :: t2 =>
                     if c2 = ',' then
                       match parseObjTail pv fuel t2 with
                       | .ok (ms, r4) => .ok ((k, v) :: ms, r4)
                       | .error e => .error e
                     else if c2 = '\x7d' then .ok ([(k, v)], t2)
                     else .error "expected comma or close brace"
               | _ => .error "expected colon") := rfl

theorem parseArrTail_ser (pv : List Char → Except String (Value × List Char)) :
    ∀ (vs : List Value) (m : Nat) (rest : List Char),
    (∀ v ∈ vs, wfV v = true) →
    (∀ v ∈ vs, ∀ r, noJoinB r = true → pv (serVal v ++ r) = .ok (v, r)) →
    vs.length + 1 ≤ m →
    parseArrTail pv m (serItems vs ++ (']' :: rest)) = .ok (vs, rest) := by
  intro vs
  induction vs with
  | nil =>
    intro m rest _ _ hm
    match m, hm with
    | m' + 1, _ =>
      rw [show serItems [] ++ (']' :: rest) = ']' :: rest from rfl, parseArrTail_step,
        skipWs_cons_not (by decide)]
      simp
  | cons v vs' ih =>
    intro m rest hwf hpv hm
    match m, hm with
    | m' + 1, hm =>
      obtain ⟨c, t, hser, hgood⟩ := serVal_head v (hwf v (by simp))
      obtain ⟨hws, hrb, hrc, hcm, hco⟩ := goodHead_class c hgood
      have hshape : serItems (v :: vs') ++ (']' :: rest)
          = c :: (t ++ (serSepItems vs' ++ (']' :: rest))) := by
        simp [serItems, hser]
      have hpv1 := hpv v (by simp) (serSepItems vs' ++ (']' :: rest))
        (noJoinB_sepItems vs' rest)
      rw [show serVal v ++ (serSepItems vs' ++ (']' :: rest))
            = c :: (t ++ (serSepItems vs' ++ (']' :: rest))) from by rw [hser]; simp]
        at hpv1
      rw [parseArrTail_step, hshape, skipWs_cons_not hws]
      simp only [if_neg hrb, hpv1]
      cases vs' with
      | nil =>
        rw [show serSepItems [] ++ (']' :: rest) = ']' :: rest from rfl,
          skipWs_cons_not (by decide)]
        simp
      | cons w ws =>
        rw [show serSepItems (w :: ws) ++ (']' :: rest)
              = ',' :: (serItems (w :: ws) ++ (']' :: rest)) from by
            simp [serSepItems, serItems],
          skipWs_cons_not (by decide)]
        simp only [if_pos rfl]
        rw [ih m' rest (fun x hx => hwf x (by simp [hx]))
          (fun x hx r hr => hpv x (by simp [hx]) r hr)
          (by simp only [List.length_cons] at hm ⊢; omega)]
        simp

theorem parseObjTail_ser (pv : List Char → Except String (Value × List Char)) :
    ∀ (ms : List (List Char × Value)) (m : Nat) (rest : List Char),
    (∀ kv ∈ ms, wfV kv.2 = true) →
    (∀ kv ∈ ms, ∀ r, noJoinB r = true → pv (serVal kv.2 ++ r) = .ok (kv.2, r)) →
    ms.length + 1 ≤ m →
    parseObjTail pv m (serMembers ms ++ ('\x7d' :: rest)) = .ok (ms, rest) := by
  intro ms
  induction ms with
  | nil =>
    intro m rest _ _ hm
    match m, hm with
    | m' + 1, _ =>
      rw [show serMembers [] ++ ('\x7d' :: rest) = '\x7d' :: rest from rfl,
        parseObjTail_step, skipWs_cons_not (by decide)]
      simp
  | cons kv ms' ih =>
    intro m rest hwf hpv hm
    obtain ⟨k, v⟩ := kv
    match m, hm with
    | m' + 1, hm =>
      have hkey : serKey k = '"' :: (escBody '"' k ++ ['"']) := rfl
      have hshape : serMembers ((k, v) :: ms') ++ ('\x7d' :: rest)
          = '"' :: ((escBody '"' k ++ ['"'])
              ++ (':' :: (serVal v ++ (serSepMembers ms' ++ ('\x7d' :: rest))))) := by
        simp [serMembers, serKey]
      have hkeyser := parseKey_ser k
        (':' :: (serVal v ++ (serSepMembers ms' ++ ('\x7d' :: rest))))
      rw [show serKey k ++ (':' :: (serVal v ++ (serSepMembers ms' ++ ('\x7d' :: rest))))
            = '"' :: ((escBody '"' k ++ ['"'])
                ++ (':' :: (serVal v ++ (serSepMembers ms' ++ ('\x7d' :: rest)))))
          from by rw [hkey]; simp] at hkeyser
      have hval := hpv (k, v) (by simp) (serSepMembers ms' ++ ('\x7d' :: rest))
        (noJoinB_sepMembers ms' rest)
      rw [parseObjTail_step, hshape, skipWs_cons_not (by decide)]
      simp only [if_neg (by decide : ¬ ('"' : Char) = '\x7d'), hkeyser,
        skipWs_cons_not (by decide : isWsCh ':' = false), hval]
      cases ms' with
      | nil =>
        rw [show serSepMembers [] ++ ('\x7d' :: rest) = '\x7d' :: rest from rfl,
          skipWs_cons_not (by decide)]
        simp
      | cons kw ws =>
        obtain ⟨k2, w⟩ := kw
        rw [show serSepMembers ((k2, w) :: ws) ++ ('\x7d' :: rest)
              = ',' :: (serMembers ((k2, w) :: ws) ++ ('\x7d' :: rest)) from by
            simp [serSepMembers, serMembers],
          skipWs_cons_not (by decide)]
        simp only [if_pos rfl]
        rw [ih m' rest (fun x hx => hwf x (by simp [hx]))
          (fun x hx r hr => hpv x (by simp [hx]) r hr)
          (by simp only [List.length_cons] at hm ⊢; omega)]
        simp

theorem parseValue_step (fuel : Nat) (l : List Char) :
    parseValue (fuel + 1) l
      = (match skipWs l with
         | [] => .error "unexpected end of input"
         | c :: t =>
           if c = '"' || c = sq || c = bq then
             match parseStrBody c t with
             | .ok (s, r) => .ok (.str s, r)
             | .error e => .error e
           else if c = '[' then
             match parseArrTail (parseValue fuel) fuel t with
             | .ok (vs, r) => .ok (.arr vs, r)
             | .error e => .error e
           else if c = '\x7b' then
             match parseObjTail (parseValue fuel) fuel t with
             | .ok (ms, r) => .ok (.obj ms, r)
             | .error e => .error e
           else if c.isDigit || c = '-' then
             match numTake (c :: t) with
             | (ds, r) => if checkNum ds then .ok (.num ds, r) else .error "malformed number"
           else if identStart c then
             match identTake (c :: t) with
             | (ds, r) =>
               if ds = "true".data then .ok (.bool true, r)
               else if ds = "false".data then .ok (.bool false, r)
               else if ds = "null".data then .ok (.null, r)
               else .error "unexpected identifier"
           else .error "unexpected character") := rfl

theorem identTake_app (l r : List Char) (hl : l.all identCh = true)
    (hr : headNot identCh r = true) : identTake (l ++ r) = (l, r) := by
  simp only [identTake]
  rw [takeWhile_app identCh l r hl hr, dropWhile_app identCh l r hl hr]

theorem numTake_app (l r : List Char) (hl : l.all isNumCh = true)
    (hr : headNot isNumCh r = true) : numTake (l ++ r) = (l, r) := by
  simp only [numTake]
  rw [takeWhile_app isNumCh l r hl hr, dropWhile_app isNumCh l r hl hr]

theorem parseValue_ser : ∀ (n : Nat) (v : Value) (rest : List Char),
    wfV v = true → sizeV v ≤ n → noJoinB rest = true →
    parseValue n (serVal v ++ rest) = .ok (v, rest) := by
  intro n
  induction n with
  | zero =>
    intro v rest _ hs _
    exact absurd hs (by have := sizeV_pos v; omega)
  | succ n ih =>
    intro v rest hwf hs hrest
    cases v with
    | null =>
      rw [parseValue_step, show serVal .null ++ rest = 'n' :: ('u' :: 'l' :: 'l' :: rest)
          from rfl, skipWs_cons_not (by decide)]
      have hit : identTake ('n' :: ('u' :: 'l' :: 'l' :: rest)) = (['n', 'u', 'l', 'l'], rest) :=
        identTake_app ['n', 'u', 'l', 'l'] rest (by decide) (noJoinB_headNot_ident hrest)
      simp [hit, show ¬('n' = sq ∨ 'n' = bq) from by decide,
        show identStart 'n' = true from by decide]
    | bool b =>
      cases b with
      | true =>
        rw [parseValue_step, show serVal (.bool true) ++ rest
            = 't' :: ('r' :: 'u' :: 'e' :: rest) from rfl, skipWs_cons_not (by decide)]
        have hit : identTake ('t' :: ('r' :: 'u' :: 'e' :: rest))
            = (['t', 'r', 'u', 'e'], rest) :=
          identTake_app ['t', 'r', 'u', 'e'] rest (by decide) (noJoinB_headNot_ident hrest)
        simp [hit, show ¬('t' = sq ∨ 't' = bq) from by decide,
          show identStart 't' = true from by decide]
      | false =>
        rw [parseValue_step, show serVal (.bool false) ++ rest
            = 'f' :: ('a' :: 'l' :: 's' :: 'e' :: rest) from rfl, skipWs_cons_not (by decide)]
        have hit : identTake ('f' :: ('a' :: 'l' :: 's' :: 'e' :: rest))
            = (['f', 'a', 'l', 's', 'e'], rest) :=
          identTake_app ['f', 'a', 'l', 's', 'e'] rest (by decide) (noJoinB_headNot_ident hrest)
        simp [hit, show ¬('f' = sq ∨ 'f' = bq) from by decide,
          show identStart 'f' = true from by decide]
    | num s =>
      simp only [wfV, Bool.and_eq_true] at hwf
      obtain ⟨c, t, rfl, hd⟩ := checkNum_head hwf.1
      have hnt : numTake (c :: (t ++ rest)) = (c :: t, rest) := by
        have := numTake_app (c :: t) rest hwf.2 (noJoinB_headNot_num hrest)
        simpa using this
      simp only [Bool.or_eq_true, decide_eq_true_eq] at hd
      rw [parseValue_step, show serVal (.num (c :: t)) ++ rest = c :: (t ++ rest) from by
        simp [serVal]]
      rcases hd with hdig | hm
      · obtain ⟨hws, h2, h3, h4, h5, h6, _, _, _, _⟩ := digit_class c hdig
        rw [skipWs_cons_not hws]
        have hq : (decide (c = '"') || decide (c = sq) || decide (c = bq)) = false := by
          simp [h2, h3, h4]
        simp [hq, h5, h6, hdig, hnt, hwf.1]
      · subst hm
        rw [skipWs_cons_not (by decide)]
        simp [hnt, hwf.1, show ¬('-' = sq ∨ '-' = bq) from by decide]
    | str b =>
      rw [parseValue_step, show serVal (.str b) ++ rest
          = '"' :: (escBody '"' b ++ ('"' :: rest)) from by simp [serVal],
        skipWs_cons_not (by decide)]
      simp [parseStrBody_ser]
    | arr vs =>
      simp only [wfV] at hwf
      simp only [sizeV] at hs
      have harr := parseArrTail_ser (parseValue n) vs n rest (wfItems_elem vs hwf)
        (fun x hx r hr => ih x r (wfItems_elem vs hwf x hx)
          (by have h1 := sizeItemsV_elem vs x hx; omega) hr)
        (by have h2 := sizeItemsV_len vs; omega)
      rw [parseValue_step, show serVal (.arr vs) ++ rest
          = '[' :: (serItems vs ++ (']' :: rest)) from by simp [serVal],
        skipWs_cons_not (by decide)]
      simp [harr, show ¬('[' = sq ∨ '[' = bq) from by decide]
    | obj ms =>
      simp only [wfV] at hwf
      simp only [sizeV] at hs
      have hobj := parseObjTail_ser (parseValue n) ms n rest (wfMembers_elem ms hwf)
        (fun x hx r hr => ih x.2 r (wfMembers_elem ms hwf x hx)
          (by have h1 := sizeMembersV_elem ms x hx; omega) hr)
        (by have h2 := sizeMembersV_len ms; omega)
      rw [parseValue_step, show serVal (.obj ms) ++ rest
          = '\x7b' :: (serMembers ms ++ ('\x7d' :: rest)) from by simp [serVal],
        skipWs_cons_not (by decide)]
      simp [hobj, show ¬('\x7b' = sq ∨ '\x7b' = bq) from by decide,
        show ¬('\x7b' = '[') from by decide]

/-- The scanner returns exactly one past the matching `]` of a serialized
    `[`-rooted literal, whatever text follows. -/
theorem scanArr_full (vs : List Value) (rest : List Char) (i : Nat) (sc : Char)
    (hwf : wfV (.arr vs) = true) :
    scanLoop (serVal (.arr vs) ++ rest) i ⟨0, false, false, sc⟩
      = some (i + (serVal (.arr vs)).length) := by
  have hshape : serVal (.arr vs) ++ rest = '[' :: (serItems vs ++ (']' :: rest)) := by
    simp [serVal]
  rw [hshape, scanLoop_cons_open, show (0 : Int) + 1 = 1 from by ring,
    scanItems_consume vs (']' :: rest) (i + 1) 1 sc hwf (by omega),
    scanLoop_cons_close_end]
  congr 1
  simp [serVal]
  omega

/-! ### Idempotence of stripping (every cleaned field is already stripped) -/

theorem dropWhile_self_app (p : Char → Bool) :
    ∀ l : List Char, ∃ s, l = s ++ l.dropWhile p := by
  intro l
  induction l with
  | nil => exact ⟨[], rfl⟩
  | cons c t ih =>
    by_cases h : p c
    · obtain ⟨s, hs⟩ := ih
      refine ⟨c :: s, ?_⟩
      rw [List.dropWhile_cons, if_pos h]
      simpa using hs
    · refine ⟨[], ?_⟩
      rw [List.dropWhile_cons, if_neg h]
      simp

theorem dropWhile_headFail (p : Char → Bool) (l : List Char) :
    l.dropWhile p = [] ∨ ∃ c t, l.dropWhile p = c :: t ∧ p c = false := by
  induction l with
  | nil => exact Or.inl rfl
  | cons c t ih =>
    by_cases h : p c
    · rw [List.dropWhile_cons, if_pos h]
      exact ih
    · rw [List.dropWhile_cons, if_neg h]
      exact Or.inr ⟨c, t, rfl, by simpa using h⟩

theorem dropWhile_twice (p : Char → Bool) (l : List Char) :
    (l.dropWhile p).dropWhile p = l.dropWhile p := by
  rcases dropWhile_headFail p l with h | ⟨c, t, h, hc⟩
  · rw [h]; rfl
  · rw [h, List.dropWhile_cons, if_neg (by simp [hc])]

theorem stripEnds_idem (l : List Char) : stripEnds (stripEnds l) = stripEnds l := by
  unfold stripEnds
  set m := l.dropWhile isPyWs with hm
  set r := (m.reverse.dropWhile isPyWs).reverse with hr
  have hrev : r.reverse = m.reverse.dropWhile isPyWs := by
    rw [hr, List.reverse_reverse]
  have step2 : r.reverse.dropWhile isPyWs = r.reverse := by
    rw [hrev]
    exact dropWhile_twice isPyWs m.reverse
  have step1 : r.dropWhile isPyWs = r := by
    cases hcase : r with
    | nil => rfl
    | cons c t =>
      obtain ⟨s, hs⟩ := dropWhile_self_app isPyWs m.reverse
      have hm2 : m = (m.reverse.dropWhile isPyWs).reverse ++ s.reverse := by
        have := congrArg List.reverse hs
        simpa [List.reverse_append] using this
      have hmr : m = r ++ s.reverse := by rw [hm2, ← hr]
      have hfail : isPyWs c = false := by
        rcases dropWhile_headFail isPyWs l with h0 | ⟨c0, t0, h0, hc0⟩
        · rw [← hm] at h0
          have hrnil : r = [] := by rw [hr, h0]; rfl
          rw [hrnil] at hcase
          cases hcase
        · rw [← hm] at h0
          have hkey : r ++ s.reverse = c0 :: t0 := by rw [← hmr, h0]
          rw [hcase] at hkey
          simp only [List.cons_append, List.cons.injEq] at hkey
          rw [hkey.1]
          exact hc0
      rw [List.dropWhile_cons, if_neg (by simp [hfail])]
  rw [step1, step2, List.reverse_reverse, hr]

theorem pyStrip_idem (s : String) : pyStrip (pyStrip s) = pyStrip s := by
  simp only [pyStrip]
  exact congrArg String.mk (stripEnds_idem s.data)

theorem noLT_pyStrip (s : String) : noLT (pyStrip s) := pyStrip_idem s

theorem noLT_pyClean (v : Option String) : noLT (pyClean v) := noLT_pyStrip _

theorem reward_type_cases (cb tk src : String) :
    reward_type cb tk src = "miles" ∨ reward_type cb tk src = "cashback" ∨
    reward_type cb tk src = "taksit_only" ∨ reward_type cb tk src = "unknown" := by
  unfold reward_type
  by_cases h1 : src = "pashabank"
  · rw [if_pos h1]
    exact Or.inl rfl
  · rw [if_neg h1]
    by_cases h2 : pyStrip cb ≠ ""
    · rw [if_pos h2]
      split
      · split
        · exact Or.inr (Or.inl rfl)
        · split
          · exact Or.inr (Or.inr (Or.inl rfl))
          · exact Or.inr (Or.inr (Or.inr rfl))
      · exact Or.inr (Or.inl rfl)
    · rw [if_neg h2]
      by_cases h4 : pyStrip tk ≠ ""
      · rw [if_pos h4]
        exact Or.inr (Or.inr (Or.inl rfl))
      · rw [if_neg h4]
        exact Or.inr (Or.inr (Or.inr rfl))

theorem noLT_reward_type (cb tk src : String) : noLT (reward_type cb tk src) := by
  rcases reward_type_cases cb tk src with h | h | h | h <;> (rw [h]; decide)

theorem noLT_cashback_num (render : PyNum → String) (hr : ∀ f, noLT (render f))
    (v : Option String) : noLT (cashback_num render v) := by
  unfold cashback_num
  dsimp only
  split
  · split
    · exact hr _
    · exact noLT_pyStrip _
  · decide

theorem bolkart_row_clean (render : PyNum → String) (hr : ∀ f, noLT (render f))
    (r : Row) : recClean (bolkart_row render r) := by
  unfold recClean bolkart_row
  dsimp only
  refine ⟨by decide, noLT_pyClean _, noLT_pyClean _, noLT_pyClean _,
    noLT_cashback_num render hr _, noLT_reward_type _ _ _, noLT_pyClean _,
    by decide, by decide, noLT_pyClean _, noLT_pyClean _, ?_⟩
  split
  · exact noLT_pyClean _
  · exact noLT_pyClean _

theorem tamkart_row_clean (render : PyNum → String) (hr : ∀ f, noLT (render f))
    (r : Row) : recClean (tamkart_row render r) := by
  unfold recClean tamkart_row
  dsimp only
  exact ⟨by decide, noLT_pyClean _, noLT_pyClean _, noLT_pyClean _,
    noLT_cashback_num render hr _, noLT_reward_type _ _ _, noLT_pyClean _,
    noLT_pyClean _, noLT_pyClean _, by decide, by decide, by decide⟩

theorem birbank_row_clean (render : PyNum → String) (hr : ∀ f, noLT (render f))
    (r : Row) : recClean (birbank_row render r) := by
  unfold recClean birbank_row
  dsimp only
  exact ⟨by decide, noLT_pyClean _, noLT_pyClean _, noLT_pyClean _,
    noLT_cashback_num render hr _, noLT_reward_type _ _ _, noLT_pyClean _,
    noLT_pyClean _, by decide, noLT_pyClean _, noLT_pyClean _, noLT_pyClean _⟩

theorem rabitabank_row_clean (render : PyNum → String) (hr : ∀ f, noLT (render f))
    (r : Row) : recClean (rabitabank_row render r) := by
  unfold recClean rabitabank_row
  dsimp only
  exact ⟨by decide, noLT_pyClean _, noLT_pyClean _, noLT_pyClean _,
    noLT_cashback_num render hr _, noLT_reward_type _ _ _, by decide,
    by decide, by decide, by decide, noLT_pyClean _, noLT_pyClean _⟩

theorem unibank_row_clean (render : PyNum → String) (hr : ∀ f, noLT (render f))
    (r : Row) : recClean (unibank_row render r) := by
  unfold recClean unibank_row
  dsimp only
  exact ⟨by decide, noLT_pyClean _, noLT_pyClean _, noLT_pyClean _,
    noLT_cashback_num render hr _, noLT_reward_type _ _ _, noLT_pyClean _,
    by decide, by decide, by decide, noLT_pyClean _, noLT_pyClean _⟩

theorem xalqbank_row_clean (render : PyNum → String) (hr : ∀ f, noLT (render f))
    (r : Row) : recClean (xalqbank_row render r) := by
  unfold recClean xalqbank_row
  dsimp only
  exact ⟨by decide, noLT_pyClean _, noLT_pyClean _, noLT_pyClean _,
    noLT_cashback_num render hr _, noLT_reward_type _ _ _, by decide,
    noLT_pyClean _, noLT_pyClean _, noLT_pyClean _, noLT_pyClean _, noLT_pyClean _⟩

theorem pashabank_row_clean (render : PyNum → String) (hr : ∀ f, noLT (render f))
    (r : Row) : recClean (pashabank_row render r) := by
  unfold recClean pashabank_row
  dsimp only
  exact ⟨by decide, by decide, noLT_pyClean _, noLT_pyClean _,
    noLT_cashback_num render hr _, by decide, by decide,
    by decide, noLT_pyClean _, by decide, by decide, noLT_pyClean _⟩

theorem bankrespublika_row_clean (r : Row) : recClean (bankrespublika_row r) := by
  unfold recClean bankrespublika_row
  dsimp only
  exact ⟨by decide, by decide, noLT_pyClean _, by decide, by decide,
    by decide, by decide, noLT_pyClean _, noLT_pyClean _, by decide,
    by decide, by decide⟩

theorem aggregate_clean (render : PyNum → String) (hr : ∀ f, noLT (render f))
    (b t bi ra u x p bk : List Row) :
    ∀ rec ∈ aggregate render b t bi ra u x p bk, recClean rec := by
  intro rec hrec
  unfold aggregate at hrec
  simp only [List.mem_append] at hrec
  rcases hrec with ((((((h | h) | h) | h) | h) | h) | h) | h
  · simp only [load_bolkart, List.mem_map] at h
    obtain ⟨r, _, rfl⟩ := h
    exact bolkart_row_clean render hr r
  · simp only [load_tamkart, List.mem_map] at h
    obtain ⟨r, _, rfl⟩ := h
    exact tamkart_row_clean render hr r
  · simp only [load_birbank, List.mem_map] at h
    obtain ⟨r, _, rfl⟩ := h
    exact birbank_row_clean render hr r
  · simp only [load_rabitabank, List.mem_map] at h
    obtain ⟨r, _, rfl⟩ := h
    exact rabitabank_row_clean render hr r
  · simp only [load_unibank, List.mem_map] at h
    obtain ⟨r, _, rfl⟩ := h
    exact unibank_row_clean render hr r
  · simp only [load_xalqbank, List.mem_map] at h
    obtain ⟨r, _, rfl⟩ := h
    exact xalqbank_row_clean render hr r
  · simp only [load_pashabank, List.mem_map] at h
    obtain ⟨r, _, rfl⟩ := h
    exact pashabank_row_clean render hr r
  · simp only [load_bankrespublika, List.mem_map] at h
    obtain ⟨r, _, rfl⟩ := h
    exact bankrespublika_row_clean r

/-! ### Claim theorems -/

set_option exponentiation.threshold 1100 in
set_option maxRecDepth 4000 in
/-- C1 counterexample: the text `"1e-324"` parses as a number whose exact
    value `10 ^ (-324)` is strictly greater than zero (`pyNumPosExact`), yet
    the classifier does not return `cashback` for it: CPython's
    `float("1e-324")` underflows to `0.0`, the comparison `float(cb) > 0` is
    made on that rounded double and is false, and the classifier falls
    through to `unknown` (or `taksit_only`) — against the claim's "returns
    `cashback` when the cashback text parses as a number strictly greater
    than zero".  One decimal order of magnitude up, `"1e-323"` stays positive
    after rounding and is classified `cashback`. -/
theorem C1_subnormal_counterexample :
    pyFloatParse "1e-324" = some (.fin false 1 (-324)) ∧
    pyNumPosExact (.fin false 1 (-324)) = true ∧
    reward_type "1e-324" "" "bolkart" = "unknown" ∧
    reward_type "1e-324" "3,6" "bolkart" = "taksit_only" ∧
    reward_type "1e-323" "" "bolkart" = "cashback" := by
  refine ⟨by decide, by decide, by decide, by decide, by decide⟩

set_option exponentiation.threshold 1100 in
set_option maxRecDepth 4000 in
/-- C1 (amended): the reward classifier is a pure total function of
    `(source, cashback, taksit_months)`: it returns `miles` for the
    pashabank source regardless of the other arguments; otherwise, for a
    non-empty (stripped) cashback it returns `cashback` when the text parses
    as a number whose IEEE-754 double compares strictly greater than zero —
    the comparison `float(cb) > 0` is made after rounding, so a positive
    exact value at or below `2 ^ (-1075)` underflows to `0.0` and does not
    count — and also `cashback` when the text does not parse at all, and
    falls through when the rounded value is not greater than zero; the
    fall-through returns `taksit_only` on a non-empty taksit string and
    `unknown` otherwise; the result is always one of the four reward kinds;
    and the concrete truth table of the spec holds. -/
theorem C1_reward_classifier :
    (∀ cashback taksit source : String,
      (source = "pashabank" → reward_type cashback taksit source = "miles") ∧
      (source ≠ "pashabank" →
        (pyStrip cashback ≠ "" →
          ∀ f, pyFloatParse (pyStrip cashback) = some f → pyNumPos f = true →
            reward_type cashback taksit source = "cashback") ∧
        (pyStrip cashback ≠ "" → pyFloatParse (pyStrip cashback) = none →
            reward_type cashback taksit source = "cashback") ∧
        ((pyStrip cashback = "" ∨
            ∃ f, pyFloatParse (pyStrip cashback) = some f ∧ pyNumPos f = false) →
          (pyStrip taksit ≠ "" → reward_type cashback taksit source = "taksit_only") ∧
          (pyStrip taksit = "" → reward_type cashback taksit source = "unknown"))) ∧
      (reward_type cashback taksit source = "miles" ∨
       reward_type cashback taksit source = "cashback" ∨
       reward_type cashback taksit source = "taksit_only" ∨
       reward_type cashback taksit source = "unknown")) ∧
    reward_type "0" "" "pashabank" = "miles" ∧
    reward_type "5.5" "" "bolkart" = "cashback" ∧
    reward_type "0" "3,6" "bolkart" = "taksit_only" ∧
    reward_type "" "" "bolkart" = "unknown" ∧
    reward_type "N/A" "" "bolkart" = "cashback" := by
  refine ⟨?_, by decide, by decide, by decide, by decide, by decide⟩
  intro cashback taksit source
  refine ⟨?_, ?_, reward_type_cases cashback taksit source⟩
  · intro h
    unfold reward_type
    rw [if_pos h]
  · intro hsrc
    refine ⟨?_, ?_, ?_⟩
    · intro hne f hf hpos
      unfold reward_type
      rw [if_neg hsrc, if_pos hne, hf]
      show (if pyNumPos f = true then "cashback"
            else if pyStrip taksit ≠ "" then "taksit_only" else "unknown") = "cashback"
      rw [if_pos hpos]
    · intro hne hf
      unfold reward_type
      rw [if_neg hsrc, if_pos hne, hf]
    · intro hfall
      constructor
      · intro htk
        unfold reward_type
        rw [if_neg hsrc]
        rcases hfall with hemp | ⟨f, hf, hnp⟩
        · rw [if_neg (by simp [hemp]), if_pos htk]
        · have hne : pyStrip cashback ≠ "" := by
            intro he
            rw [he] at hf
            rw [show pyFloatParse "" = none from rfl] at hf
            cases hf
          rw [if_pos hne, hf]
          show (if pyNumPos f = true then "cashback"
                else if pyStrip taksit ≠ "" then "taksit_only" else "unknown") = "taksit_only"
          rw [if_neg (by simp [hnp]), if_pos htk]
      · intro htk
        unfold reward_type
        rw [if_neg hsrc]
        rcases hfall with hemp | ⟨f, hf, hnp⟩
        · rw [if_neg (by simp [hemp]), if_neg (by simp [htk])]
        · have hne : pyStrip cashback ≠ "" := by
            intro he
            rw [he] at hf
            rw [show pyFloatParse "" = none from rfl] at hf
            cases hf
          rw [if_pos hne, hf]
          show (if pyNumPos f = true then "cashback"
                else if pyStrip taksit ≠ "" then "taksit_only" else "unknown") = "unknown"
          rw [if_neg (by simp [hnp]), if_neg (by simp [htk])]

set_option exponentiation.threshold 1100 in
set_option maxRecDepth 4000 in
/-- C1 witness: a concrete positive-cashback classification, obtained by
    instantiating the classifier theorem. -/
theorem C1_reward_classifier_witness :
    reward_type "2.5" "9" "unibank" = "cashback" :=
  ((C1_reward_classifier.1 "2.5" "9" "unibank").2.1 (by decide)).1 (by decide)
    (PyNum.fin false 25 (-1)) (by decide) (by decide)

/-- C2 counterexample: a raw bolkart record whose derived name is
    whitespace-only is still emitted by the normalizer (the claim says it is
    dropped and the drop count increases); the emitted record merely carries
    an empty name, and no drop counter exists anywhere in the loader. -/
theorem C2_empty_name_counterexample :
    (load_bolkart (fun _ => "")
        [fun k => if k = "name_az" then some "   " else none]).length = 1 ∧
    (bolkart_row (fun _ => "")
        (fun k => if k = "name_az" then some "   " else none)).name = "" := by
  constructor
  · rfl
  · decide

/-- C2 (amended): the per-source normalizer emits exactly one `PartnerRec`
    per raw record, unconditionally — records whose derived name is empty
    after trimming are emitted (with empty `name`), not dropped, and no drop
    count is produced. -/
theorem C2_no_drop_amended : ∀ (render : PyNum → String) (rows : List Row),
    (load_bolkart render rows).length = rows.length ∧
    ∀ r ∈ rows, bolkart_row render r ∈ load_bolkart render rows := by
  intro render rows
  exact ⟨List.length_map rows _, fun r hr => List.mem_map_of_mem _ hr⟩

/-- C2 witness: the amended theorem at a singleton row list. -/
theorem C2_no_drop_witness :
    bolkart_row (fun _ => "") (fun _ => none)
      ∈ load_bolkart (fun _ => "") [fun _ => none] :=
  (C2_no_drop_amended (fun _ => "") [fun _ => none]).2 _ (List.mem_singleton_self _)

/-- C3 counterexample: an unbalanced literal (`let s=[1,2`) and an
    unterminated string (`let s=["ab`) both make `extract_js_array` return a
    normal, empty extraction — no `UnterminatedLiteral`/`UnterminatedString`
    error is raised and nothing is surfaced to the caller. -/
theorem C3_unterminated_counterexample :
    extract_js_array ("let s=[1,2".data) = some [] ∧
    extract_js_array ("let s=[\x22ab".data) = some [] := by
  constructor <;> rfl

/-- C3 (amended): when the end of the text is reached before the bracket
    depth returns to zero — including while still inside a string literal —
    the extractor raises no error at all: the scan loop falls through,
    `end` keeps its fallback value `start`, and the extraction is the empty
    string.  The only error the extractor can raise is the missing-marker
    `ValueError`. -/
theorem C3_unterminated_amended : ∀ (js : List Char) (start : Nat),
    locate_marker js = some start →
    scanLoop (js.drop start) start initScan = none →
    extract_js_array js = some [] := by
  intro js start h1 h2
  unfold extract_js_array
  rw [h1]
  dsimp only
  rw [h2]
  simp

/-- C3 witness: the amended theorem at the concrete input `let s=[[`. -/
theorem C3_unterminated_witness : extract_js_array ("let s=[[".data) = some [] :=
  C3_unterminated_amended ("let s=[[".data) 6 (by rfl) (by rfl)

/-- C4 counterexample: `{}` is an input whose opening bracket at offset 0 has
    its matching closing bracket at offset 1, so the claimed guarantee
    requires the scanner to return offset 2; the scanner instead runs off the
    end and returns no offset at all, because `{`/`}` never touch the depth
    counter. -/
theorem C4_brace_counterexample :
    serVal (Value.obj []) = ['\x7b', '\x7d'] ∧
    scanLoop (serVal (Value.obj [])) 0 initScan = none := by
  constructor <;> rfl

/-- C4 (amended): the scanner guarantee holds for `[`-rooted literals: for
    every well-formed value tree serialized as a `[`-rooted literal — with
    nested arrays/objects and strings containing brackets and escaped
    quotes — and any trailing text, the scan from depth 0 returns the offset
    one past exactly the matching `]`; brackets inside string literals never
    affect the depth counter and a backslash escapes exactly one character.
    `{`-rooted literals are NOT scanned (see the counterexample). -/
theorem C4_scanner_balance_amended : ∀ (vs : List Value) (rest : List Char)
    (i : Nat) (sc : Char), wfV (.arr vs) = true →
    scanLoop (serVal (.arr vs) ++ rest) i ⟨0, false, false, sc⟩
      = some (i + (serVal (.arr vs)).length) :=
  fun vs rest i sc hwf => scanArr_full vs rest i sc hwf

/-- C4 witness: the amended theorem on the literal `[1,{"a":"x]x\"y"},[1,2]]`
    built as a value tree, followed by trailing text. -/
theorem C4_scanner_balance_witness :
    scanLoop (serVal (.arr [.num ['1'],
        .obj [(['a'], .str ['x', ']', 'x', '"', 'y'])],
        .arr [.num ['1'], .num ['2']]]) ++ "tail".data) 3 ⟨0, false, false, ' '⟩
      = some (3 + (serVal (.arr [.num ['1'],
        .obj [(['a'], .str ['x', ']', 'x', '"', 'y'])],
        .arr [.num ['1'], .num ['2']]])).length) :=
  C4_scanner_balance_amended _ _ 3 ' ' (by decide)

/-- C5 counterexample: an input whose literal starts at an opening `{` is not
    scanned to its matching `}` — the depth counter ignores braces entirely,
    so the scan of `{a:1}` returns no offset (the claim requires offset 5). -/
theorem C5_brace_counterexample :
    scanLoop ("\x7ba:1\x7d".data) 0 initScan = none := by
  rfl

/-- C5 (amended): while not inside a string and not escaped, the depth
    counter is incremented exactly on `[` and decremented exactly on `]` —
    `{` and `}` are ignored — and scanning halts the instant a `]` returns
    the depth to zero; inside a string no unescaped non-quote character
    changes the state at all. -/
theorem C5_depth_amended :
    (∀ (st : ScanSt) (i : Nat), st.esc = false → st.inStr = false →
      scanStep st i '[' = .inl ⟨st.depth + 1, st.inStr, st.esc, st.strChar⟩ ∧
      scanStep st i '\x7b' = .inl st ∧
      scanStep st i '\x7d' = .inl st ∧
      (st.depth = 1 → scanStep st i ']' = .inr (i + 1)) ∧
      (st.depth ≠ 1 → scanStep st i ']'
          = .inl ⟨st.depth - 1, st.inStr, st.esc, st.strChar⟩)) ∧
    (∀ (st : ScanSt) (i : Nat) (ch : Char), st.esc = false → st.inStr = true →
      ch ≠ st.strChar → ch ≠ '\\' → scanStep st i ch = .inl st) := by
  constructor
  · intro st i hesc hstr
    obtain ⟨d, inS, esc, scc⟩ := st
    simp only at hesc hstr
    subst hesc
    subst hstr
    refine ⟨by simp [scanStep, sq, bq], by simp [scanStep, sq, bq],
      by simp [scanStep, sq, bq], ?_, ?_⟩
    · intro hd
      dsimp only at hd
      subst hd
      simp [scanStep, sq, bq]
    · intro hd
      dsimp only at hd
      have h0 : ¬ (d - 1 = 0) := by omega
      simp [scanStep, sq, bq, h0]
  · intro st i ch hesc hstr hq hb
    obtain ⟨d, inS, esc, scc⟩ := st
    simp only at hesc hstr hq
    subst hesc
    subst hstr
    simp [scanStep, hq, hb]

/-- C5 witness: the amended theorem at depth 1, showing the `[` increment and
    the immediate halt on `]`. -/
theorem C5_depth_witness :
    scanStep ⟨1, false, false, ' '⟩ 7 '[' = .inl ⟨2, false, false, ' '⟩ ∧
    scanStep ⟨1, false, false, ' '⟩ 7 ']' = .inr 8 :=
  ⟨(C5_depth_amended.1 ⟨1, false, false, ' '⟩ 7 rfl rfl).1,
   (C5_depth_amended.1 ⟨1, false, false, ' '⟩ 7 rfl rfl).2.2.2.1 rfl⟩

/-- C6 counterexample: on input `a%b`, the code removes the interior `%`
    (Python `replace("%", "")` removes every `%`, not only a trailing one)
    and, the parse failing, stores `ab` — not the claimed stripped text
    `a%b` verbatim. -/
theorem C6_percent_counterexample :
    cashback_num (fun _ => "") (some "a%b") = "ab" ∧ ("ab" : String) ≠ "a%b" := by
  constructor
  · decide
  · decide

/-- C6 (amended): normalization removes EVERY `%` character (not only a
    trailing one) and strips whitespace; a missing or effectively empty value
    normalizes to the empty string; on parse failure the stored value is the
    fully-`%`-removed stripped text verbatim; on parse success the stored
    value is the float rendering of the parsed number (a lossy float
    round-trip, not the exact original decimal text). -/
theorem C6_cashback_amended : ∀ (render : PyNum → String) (raw : Option String),
    (cashback_num render none = "" ∧ cashback_num render (some "") = "") ∧
    (pyStrip (removePct (pyClean raw)) = "" → cashback_num render raw = "") ∧
    (pyStrip (removePct (pyClean raw)) ≠ "" →
      pyFloatParse (pyStrip (removePct (pyClean raw))) = none →
      cashback_num render raw = pyStrip (removePct (pyClean raw))) ∧
    (∀ f, pyStrip (removePct (pyClean raw)) ≠ "" →
      pyFloatParse (pyStrip (removePct (pyClean raw))) = some f →
      cashback_num render raw = render f) ∧
    (∀ s : String, '%' ∉ (removePct s).data) := by
  intro render raw
  refine ⟨⟨rfl, rfl⟩, ?_, ?_, ?_, ?_⟩
  · intro h
    unfold cashback_num
    rw [if_neg (by simp [h])]
  · intro h hf
    unfold cashback_num
    rw [if_pos h, hf]
  · intro f h hf
    unfold cashback_num
    rw [if_pos h, hf]
  · intro s hmem
    simp only [removePct] at hmem
    have := List.of_mem_filter hmem
    simp at this

/-- C6 witness: the amended failure branch at the concrete raw value
    `" N/%A "`. -/
theorem C6_cashback_witness : cashback_num (fun _ => "F") (some " N/%A ") = "N/A" := by
  have h := (C6_cashback_amended (fun _ => "F") (some " N/%A ")).2.2.1
    (by decide) (by decide)
  rw [h]
  decide

theorem occursAt_markerPat_parts (js : List Char) (i : Nat)
    (h : occursAt markerPat js i) :
    occursAt markerEq js i ∧ (js.drop (i + 6)).take 1 = ['['] := by
  unfold occursAt at h ⊢
  rw [show markerPat.length = 7 from rfl] at h
  have hsplit : js.drop i = markerPat ++ (js.drop i).drop 7 := by
    conv_lhs => rw [← List.take_append_drop 7 (js.drop i)]
    rw [h]
  have hme : markerPat = markerEq ++ ['['] := rfl
  constructor
  · rw [show markerEq.length = 6 from rfl, hsplit, hme, List.append_assoc,
      show (6 : Nat) = markerEq.length from rfl, List.take_left]
  · rw [← List.drop_drop 6 i js, hsplit, hme, List.append_assoc,
      show (6 : Nat) = markerEq.length from rfl, List.drop_left]
    rfl

/-- C7 counterexample: under the spec reading of the marker (the assignment
    prefix `let s=`, with the returned offset pointing at the bracket), the
    marker occurs in `let s=5` yet the locator fails; under the reading where
    the marker is the full searched pattern `let s=[`, the locator of
    `let s=[]` returns 6, which is not the offset immediately after that
    marker (7).  Either way the claim as stated is false. -/
theorem C7_marker_counterexample :
    ((firstOccur ("let s=".data) ("let s=5".data)).isSome = true ∧
      locate_marker ("let s=5".data) = none) ∧
    (firstOccur ("let s=[".data) ("let s=[]".data) = some 0 ∧
      locate_marker ("let s=[]".data) = some 6 ∧ ("let s=[".data).length = 7) := by
  refine ⟨⟨by decide, by decide⟩, by decide, by decide, by decide⟩

/-- C7 (amended): the locator searches for the marker `let s=` immediately
    followed by `[`; whenever that pattern first occurs at `i`, it returns
    `i + 6`, the offset immediately after the marker `let s=`, pointing at
    the `[`; it fails precisely when the pattern `let s=[` does not occur —
    even if the bare marker occurs. -/
theorem C7_locator_amended : ∀ js : List Char,
    (∀ i, firstOccur markerPat js = some i →
      locate_marker js = some (i + 6) ∧ occursAt markerEq js i ∧
      (js.drop (i + 6)).take 1 = ['[']) ∧
    (firstOccur markerPat js = none →
      locate_marker js = none ∧ ∀ j, ¬ occursAt markerPat js j) := by
  intro js
  constructor
  · intro i hfo
    have hocc := firstOccur_some_occursAt markerPat js i hfo
    obtain ⟨h1, h2⟩ := occursAt_markerPat_parts js i hocc
    refine ⟨?_, h1, h2⟩
    unfold locate_marker
    rw [hfo]
  · intro hfo
    refine ⟨?_, firstOccur_none_not_occursAt markerPat js hfo⟩
    unfold locate_marker
    rw [hfo]

/-- C7 witness: the amended theorem at `qlet s=[1]`, where the pattern first
    occurs at index 1. -/
theorem C7_locator_witness :
    locate_marker ("qlet s=[1]".data) = some 7 ∧
    occursAt markerEq ("qlet s=[1]".data) 1 ∧
    (("qlet s=[1]".data).drop 7).take 1 = ['['] :=
  (C7_locator_amended ("qlet s=[1]".data)).1 1 (by decide)

set_option maxHeartbeats 3200000 in
/-- C8: for every raw record of each of the eight per-source loaders, a field
    absent from the raw payload (an absent/`None` dict value) is normalized to
    the canonical empty string -- for cashback fields via the cashback
    normalizer, which maps an absent value to the empty string -- and every
    loader still produces the record (normalization is total; a missing field
    never causes a failure). -/
theorem C8_missing_fields : ∀ (render : PyNum → String) (r : Row),
    (pyClean none = "" ∧ cashback_num render none = "") ∧
    ((r "id" = none → (bolkart_row render r).id = "") ∧
      (r "name_az" = none → (bolkart_row render r).name = "") ∧
      (r "category_az" = none → (bolkart_row render r).category = "") ∧
      (r "cashback" = none → (bolkart_row render r).cashback = "") ∧
      (r "taksits" = none → (bolkart_row render r).taksit_months = "") ∧
      (r "phone_number" = none → (bolkart_row render r).phone = "") ∧
      (r "site_url" = none → (bolkart_row render r).website = "") ∧
      (r "logo_url" = none → r "icon_url" = none →
        (bolkart_row render r).image_url = "") ∧
      (load_bolkart render [r]).length = 1) ∧
    ((r "id" = none → (tamkart_row render r).id = "") ∧
      (r "name" = none → (tamkart_row render r).name = "") ∧
      (r "category" = none → (tamkart_row render r).category = "") ∧
      (r "cashback" = none → (tamkart_row render r).cashback = "") ∧
      (r "taksits" = none → (tamkart_row render r).taksit_months = "") ∧
      (r "city" = none → (tamkart_row render r).city = "") ∧
      (r "address" = none → (tamkart_row render r).address = "") ∧
      (load_tamkart render [r]).length = 1) ∧
    ((r "id" = none → (birbank_row render r).id = "") ∧
      (r "name" = none → (birbank_row render r).name = "") ∧
      (r "categories" = none → (birbank_row render r).category = "") ∧
      (r "cashback" = none → (birbank_row render r).cashback = "") ∧
      (r "installments" = none → (birbank_row render r).taksit_months = "") ∧
      (r "cities" = none → (birbank_row render r).city = "") ∧
      (r "phone" = none → (birbank_row render r).phone = "") ∧
      (r "website" = none → (birbank_row render r).website = "") ∧
      (r "image_url" = none → (birbank_row render r).image_url = "") ∧
      (load_birbank render [r]).length = 1) ∧
    ((r "id" = none → (rabitabank_row render r).id = "") ∧
      (r "title" = none → (rabitabank_row render r).name = "") ∧
      (r "category" = none → (rabitabank_row render r).category = "") ∧
      (r "cash_back" = none → (rabitabank_row render r).cashback = "") ∧
      (r "url" = none → (rabitabank_row render r).website = "") ∧
      (r "image_url" = none → (rabitabank_row render r).image_url = "") ∧
      (load_rabitabank render [r]).length = 1) ∧
    ((r "id" = none → (unibank_row render r).id = "") ∧
      (r "name" = none → (unibank_row render r).name = "") ∧
      (r "category" = none → (unibank_row render r).category = "") ∧
      (r "cashback_percent" = none → (unibank_row render r).cashback = "") ∧
      (r "taksit_months" = none → (unibank_row render r).taksit_months = "") ∧
      (r "detail_url" = none → (unibank_row render r).website = "") ∧
      (r "image_url" = none → (unibank_row render r).image_url = "") ∧
      (load_unibank render [r]).length = 1) ∧
    ((r "id" = none → (xalqbank_row render r).id = "") ∧
      (r "title" = none → (xalqbank_row render r).name = "") ∧
      (r "category" = none → (xalqbank_row render r).category = "") ∧
      (r "cashback_percent" = none → (xalqbank_row render r).cashback = "") ∧
      (r "region" = none → (xalqbank_row render r).city = "") ∧
      (r "address" = none → (xalqbank_row render r).address = "") ∧
      (r "phone" = none → (xalqbank_row render r).phone = "") ∧
      (r "website" = none → (xalqbank_row render r).website = "") ∧
      (r "image_url" = none → (xalqbank_row render r).image_url = "") ∧
      (load_xalqbank render [r]).length = 1) ∧
    ((r "name" = none → (pashabank_row render r).name = "") ∧
      (r "category" = none → (pashabank_row render r).category = "") ∧
      (r "miles_per_azn" = none → (pashabank_row render r).cashback = "") ∧
      (r "condition" = none → (pashabank_row render r).address = "") ∧
      (r "image_url" = none → (pashabank_row render r).image_url = "") ∧
      (load_pashabank render [r]).length = 1) ∧
    ((r "name" = none → (bankrespublika_row r).name = "") ∧
      (r "city" = none → (bankrespublika_row r).city = "") ∧
      (r "address" = none → (bankrespublika_row r).address = "") ∧
      (load_bankrespublika [r]).length = 1) := by
  intro render r
  refine ⟨⟨by decide, rfl⟩, ⟨?_, ?_, ?_, ?_, ?_, ?_, ?_, ?_, rfl⟩, ⟨?_, ?_, ?_, ?_, ?_, ?_, ?_, rfl⟩, ⟨?_, ?_, ?_, ?_, ?_, ?_, ?_, ?_, ?_, rfl⟩, ⟨?_, ?_, ?_, ?_, ?_, ?_, rfl⟩, ⟨?_, ?_, ?_, ?_, ?_, ?_, ?_, rfl⟩, ⟨?_, ?_, ?_, ?_, ?_, ?_, ?_, ?_, ?_, rfl⟩, ⟨?_, ?_, ?_, ?_, ?_, rfl⟩, ⟨?_, ?_, ?_, rfl⟩⟩
  · intro h
    show pyClean (r "id") = ""
    rw [h]
    decide
  · intro h
    show pyClean (r "name_az") = ""
    rw [h]
    decide
  · intro h
    show pyClean (r "category_az") = ""
    rw [h]
    decide
  · intro h
    show cashback_num render (r "cashback") = ""
    rw [h]
    rfl
  · intro h
    show pyClean (r "taksits") = ""
    rw [h]
    decide
  · intro h
    show pyClean (r "phone_number") = ""
    rw [h]
    decide
  · intro h
    show pyClean (r "site_url") = ""
    rw [h]
    decide
  · intro h1 h2
    show (if pyClean (r "logo_url") = "" then pyClean (r "icon_url")
          else pyClean (r "logo_url")) = ""
    rw [h1, h2]
    decide
  · intro h
    show pyClean (r "id") = ""
    rw [h]
    decide
  · intro h
    show pyClean (r "name") = ""
    rw [h]
    decide
  · intro h
    show pyClean (r "category") = ""
    rw [h]
    decide
  · intro h
    show cashback_num render (r "cashback") = ""
    rw [h]
    rfl
  · intro h
    show pyClean (r "taksits") = ""
    rw [h]
    decide
  · intro h
    show pyClean (r "city") = ""
    rw [h]
    decide
  · intro h
    show pyClean (r "address") = ""
    rw [h]
    decide
  · intro h
    show pyClean (r "id") = ""
    rw [h]
    decide
  · intro h
    show pyClean (r "name") = ""
    rw [h]
    decide
  · intro h
    show pyClean (r "categories") = ""
    rw [h]
    decide
  · intro h
    show cashback_num render (r "cashback") = ""
    rw [h]
    rfl
  · intro h
    show pyClean (r "installments") = ""
    rw [h]
    decide
  · intro h
    show pyClean (r "cities") = ""
    rw [h]
    decide
  · intro h
    show pyClean (r "phone") = ""
    rw [h]
    decide
  · intro h
    show pyClean (r "website") = ""
    rw [h]
    decide
  · intro h
    show pyClean (r "image_url") = ""
    rw [h]
    decide
  · intro h
    show pyClean (r "id") = ""
    rw [h]
    decide
  · intro h
    show pyClean (r "title") = ""
    rw [h]
    decide
  · intro h
    show pyClean (r "category") = ""
    rw [h]
    decide
  · intro h
    show cashback_num render (r "cash_back") = ""
    rw [h]
    rfl
  · intro h
    show pyClean (r "url") = ""
    rw [h]
    decide
  · intro h
    show pyClean (r "image_url") = ""
    rw [h]
    decide
  · intro h
    show pyClean (r "id") = ""
    rw [h]
    decide
  · intro h
    show pyClean (r "name") = ""
    rw [h]
    decide
  · intro h
    show pyClean (r "category") = ""
    rw [h]
    decide
  · intro h
    show cashback_num render (r "cashback_percent") = ""
    rw [h]
    rfl
  · intro h
    show pyClean (r "taksit_months") = ""
    rw [h]
    decide
  · intro h
    show pyClean (r "detail_url") = ""
    rw [h]
    decide
  · intro h
    show pyClean (r "image_url") = ""
    rw [h]
    decide
  · intro h
    show pyClean (r "id") = ""
    rw [h]
    decide
  · intro h
    show pyClean (r "title") = ""
    rw [h]
    decide
  · intro h
    show pyClean (r "category") = ""
    rw [h]
    decide
  · intro h
    show cashback_num render (r "cashback_percent") = ""
    rw [h]
    rfl
  · intro h
    show pyClean (r "region") = ""
    rw [h]
    decide
  · intro h
    show pyClean (r "address") = ""
    rw [h]
    decide
  · intro h
    show pyClean (r "phone") = ""
    rw [h]
    decide
  · intro h
    show pyClean (r "website") = ""
    rw [h]
    decide
  · intro h
    show pyClean (r "image_url") = ""
    rw [h]
    decide
  · intro h
    show pyClean (r "name") = ""
    rw [h]
    decide
  · intro h
    show pyClean (r "category") = ""
    rw [h]
    decide
  · intro h
    show cashback_num render (r "miles_per_azn") = ""
    rw [h]
    rfl
  · intro h
    show pyClean (r "condition") = ""
    rw [h]
    decide
  · intro h
    show pyClean (r "image_url") = ""
    rw [h]
    decide
  · intro h
    show pyClean (r "name") = ""
    rw [h]
    decide
  · intro h
    show pyClean (r "city") = ""
    rw [h]
    decide
  · intro h
    show pyClean (r "address") = ""
    rw [h]
    decide

/-- C8 witness: rows with every field absent still yield records with
    canonical empty fields, sampled across four of the eight loaders. -/
theorem C8_missing_fields_witness :
    (bolkart_row (fun _ => "") (fun _ => none)).name = "" ∧
    (tamkart_row (fun _ => "") (fun _ => none)).city = "" ∧
    (pashabank_row (fun _ => "") (fun _ => none)).cashback = "" ∧
    (bankrespublika_row (fun _ => none)).address = "" := by
  obtain ⟨-, hb, ht, -, -, -, -, hp, hbk⟩ :=
    C8_missing_fields (fun _ => "") (fun _ => none)
  exact ⟨hb.2.1 rfl, ht.2.2.2.2.2.1 rfl, hp.2.2.1 rfl, hbk.2.2.1 rfl⟩

/-- C9 (spec-modelled): parser round-trip.  The repository delegates literal
    parsing to an external JS runtime (`parse_js_array`), so the Permissive
    Literal Parser is modelled from spec section 4.3; for every well-formed
    `Value` tree serialized into valid JS-literal syntax (quoted keys,
    double-quoted strings, standard number formatting) and any sufficient
    depth limit, parsing the serialized text yields exactly the original
    tree. -/
theorem C9_parse_serialize_roundtrip : ∀ (v : Value) (n : Nat),
    wfV v = true → sizeV v ≤ n →
    parse_js_literal n (serVal v) = .ok v := by
  intro v n hwf hs
  unfold parse_js_literal
  have h := parseValue_ser n v [] hwf hs rfl
  rw [List.append_nil] at h
  rw [h]
  rfl

/-- C9 witness: the round trip on a concrete nested object. -/
theorem C9_parse_serialize_witness :
    parse_js_literal 20 (serVal (.obj [(['a'],
        .arr [.num ['1'], .str ['x'], .bool true, .null])]))
      = .ok (.obj [(['a'], .arr [.num ['1'], .str ['x'], .bool true, .null])]) :=
  C9_parse_serialize_roundtrip _ 20 (by decide) (by decide)

/-- C10: every record in the aggregated sequence — produced by the eight
    per-source normalizers, each of whose string fields passes through the
    cleaning step mapping absent values to the empty string and stripping
    surrounding whitespace — has no leading or trailing whitespace in any
    field, provided the float rendering itself produces stripped text. -/
theorem C10_aggregate_trimmed : ∀ (render : PyNum → String),
    (∀ f, noLT (render f)) → ∀ (b t bi ra u x p bk : List Row),
    ∀ rec ∈ aggregate render b t bi ra u x p bk, recClean rec :=
  fun render hr b t bi ra u x p bk => aggregate_clean render hr b t bi ra u x p bk

/-- C10 witness: the aggregate of one all-absent bolkart row is clean. -/
theorem C10_aggregate_trimmed_witness :
    recClean (bolkart_row (fun _ => "") (fun _ => none)) :=
  C10_aggregate_trimmed (fun _ => "") (fun _ => (by decide : pyStrip "" = ""))
    [fun _ => none] [] [] [] [] [] [] []
    (bolkart_row (fun _ => "") (fun _ => none)) (by
      unfold aggregate load_bolkart load_tamkart load_birbank load_rabitabank
        load_unibank load_xalqbank load_pashabank load_bankrespublika
      simp)

end Cashback
